import Mathlib

/-!
Verification development for the cv_parser repository.

Shallow embedding of the repository's ingestion / job pipeline:
`app/utils/experience_utils.py`, `app/utils/file_utils.py`,
`app/services/file_service.py`, `app/services/openai_service.py`,
`app/services/parser_service.py`, `app/repositories/parser_repository.py`,
`app/exceptions/custom_exceptions.py`.

Modelling conventions:
* Python strings are modelled as `List Char` for all character-level
  processing (a Lean `String` wrapper is used at the interfaces);
* Python `int()` parsing of a stripped numeral is modelled as optional
  sign plus ASCII decimal digits (Python additionally accepts
  digit-group underscores and non-ASCII digits; no claim depends on
  those);
* machine floats appear only in log timing and the `size_mb` division;
  the size comparison `len(content)/(1024*1024) > max_mb` is modelled
  exactly as `len > max_mb * 1048576`;
* calls to external collaborators (libmagic sniffing, the PyMuPDF/Word
  parser libraries, the Azure OpenAI HTTP call, Pydantic validation,
  `datetime.now()`) are explicit parameters of the embedded functions;
* the relational store is modelled as an association list with the
  primary-key uniqueness that the `parsed_cvs` table enforces; database
  writes are modelled as reliable (the spec itself places persistence
  failures outside the state machine's guarantees).
-/

namespace CvParser

/-! ## Python value and string primitives -/

/-- Python values as they occur in the parsed-CV dictionaries: `None`,
booleans, integers, strings, lists and (string-keyed) dicts. -/
inductive PyVal where
  | none
  | bool (b : Bool)
  | int (n : Int)
  | str (s : String)
  | list (xs : List PyVal)
  | dict (fields : List (String × PyVal))

/-- Python truthiness for the values above: `None`, `False`, `0`, `""`,
`[]` and `{}` are falsy, everything else is truthy. -/
def truthy : PyVal → Bool
  | PyVal.none => false
  | PyVal.bool b => b
  | PyVal.int n => n != 0
  | PyVal.str s => !s.data.isEmpty
  | PyVal.list xs => !xs.isEmpty
  | PyVal.dict fs => !fs.isEmpty

/-- A Python dict with string keys (association list, first key wins,
matching `dict.get` on the unique-key dicts the code builds). -/
abbrev DictV : Type := List (String × PyVal)

/-- `d.get(k)` with default `None`. -/
def dget (d : DictV) (k : String) : PyVal :=
  match d.find? (fun p => p.1 == k) with
  | Option.some p => p.2
  | Option.none => PyVal.none

/-- Python whitespace characters stripped by `str.strip()` (ASCII part;
no claim involves non-ASCII whitespace). -/
def isPySpace (c : Char) : Bool :=
  c == ' ' || c == '\t' || c == '\n' || c == '\x0d' || c == '\x0b' || c == '\x0c'

/-- Drop the trailing characters satisfying `p` (the right half of
`str.strip()`). -/
def dropTrailWhile (p : Char → Bool) : List Char → List Char
  | [] => []
  | a :: rest =>
      match dropTrailWhile p rest with
      | [] => if p a then [] else [a]
      | b :: r => a :: b :: r

/-- `str.strip()` on a character list (leading and trailing Python
whitespace removed). -/
def stripChars (l : List Char) : List Char :=
  dropTrailWhile isPySpace (l.dropWhile isPySpace)

/-- `str.strip()`. -/
def pyStrip (s : String) : String := String.mk (stripChars s.data)

/-- ASCII lower-casing (`str.lower()` restricted to the ASCII letters
that the month names and file extensions consist of). -/
def asciiLower (c : Char) : Char :=
  if 'A' ≤ c && c ≤ 'Z' then Char.ofNat (c.toNat + 32) else c

/-- `str.lower()` on a character list. -/
def lowerChars (l : List Char) : List Char := l.map asciiLower

/-- Decimal value of a run of ASCII digits, `none` if any character is
not a digit or the run is empty. -/
def digitsVal : List Char → Option Nat
  | [] => Option.none
  | [c] => if c.isDigit then Option.some (c.toNat - '0'.toNat) else Option.none
  | c :: rest =>
      if c.isDigit then
        match digitsVal rest with
        | Option.some v => Option.some ((c.toNat - '0'.toNat) * 10 ^ rest.length + v)
        | Option.none => Option.none
      else Option.none

/-- Python `int()` applied to an already-stripped string: an optional
sign followed by at least one decimal digit; everything else raises
`ValueError`, modelled as `none`. -/
def pyParseInt (l : List Char) : Option Int :=
  match l with
  | '-' :: rest => (digitsVal rest).map (fun v => -(v : Int))
  | '+' :: rest => (digitsVal rest).map (fun v => (v : Int))
  | _ => (digitsVal l).map (fun v => (v : Int))

/-- Python `str()` on the field values reaching `int()`/month parsing.
For lists and dicts the exact rendering is irrelevant downstream:
every use feeds `int()` or the month table, and the placeholder fails
both exactly as Python's rendering does. -/
def pyStr : PyVal → String
  | PyVal.none => "None"
  | PyVal.bool b => if b then "True" else "False"
  | PyVal.int n => toString n
  | PyVal.str s => s
  | PyVal.list _ => "[...]"
  | PyVal.dict _ => "{...}"

/-! ## `app/utils/experience_utils.py` -/

/-- `MONTH_MAPPING`: full and three-letter month names (lower case) to
month numbers. -/
def monthMapping (s : String) : Option Int :=
  match s with
  | "january" => Option.some 1
  | "february" => Option.some 2
  | "march" => Option.some 3
  | "april" => Option.some 4
  | "may" => Option.some 5
  | "june" => Option.some 6
  | "july" => Option.some 7
  | "august" => Option.some 8
  | "september" => Option.some 9
  | "october" => Option.some 10
  | "november" => Option.some 11
  | "december" => Option.some 12
  | "jan" => Option.some 1
  | "feb" => Option.some 2
  | "mar" => Option.some 3
  | "apr" => Option.some 4
  | "jun" => Option.some 6
  | "jul" => Option.some 7
  | "aug" => Option.some 8
  | "sep" => Option.some 9
  | "oct" => Option.some 10
  | "nov" => Option.some 11
  | "dec" => Option.some 12
  | _ => Option.none

/-- `parse_month`: falsy values give 1; integers are clamped to 1..12
(a Python `bool` is an `int` with value 0/1, giving 1 on both branches,
which the `PyVal.bool` case below reproduces through the string path);
strings are stripped and tried as a number, then as a (case-insensitive)
month name, defaulting to 1. -/
def parse_month (v : PyVal) : Int :=
  if ¬ truthy v then 1
  else
    match v with
    | PyVal.int n => max 1 (min 12 n)
    | _ =>
        let monthStr := stripChars (pyStr v).data
        if monthStr = [] then 1
        else
          match pyParseInt monthStr with
          | Option.some n => max 1 (min 12 n)
          | Option.none =>
              match monthMapping (String.mk (lowerChars monthStr)) with
              | Option.some m => m
              | Option.none => 1

/-- The year field of a date dict as `int(str(value).strip())`, `none`
where the Python code returns 0 (missing/falsy year, empty after strip,
`ValueError`). -/
def yearField (d : DictV) (k : String) : Option Int :=
  if ¬ truthy (dget d k) then Option.none
  else
    let s := stripChars (pyStr (dget d k)).data
    if s = [] then Option.none else pyParseInt s

/-- `calculate_duration_in_months`.  `nowYear`/`nowMonth` stand for
`datetime.now()`.  Total on its annotated domain
`Optional[Dict] × Optional[Dict] × bool` — no input raises. -/
def calculate_duration_in_months (start_date end_date : Option DictV)
    (is_current : Bool) (nowYear nowMonth : Int) : Int :=
  match start_date with
  | Option.none => 0
  | Option.some sd =>
    if sd.isEmpty || ¬ truthy (dget sd "year") then 0
    else
      match yearField sd "year" with
      | Option.none => 0
      | Option.some startYear =>
        let startMonth := parse_month (dget sd "month")
        if is_current then
          max 0 ((nowYear - startYear) * 12 + (nowMonth - startMonth) + 1)
        else
          match end_date with
          | Option.none => 0
          | Option.some ed =>
            if ed.isEmpty || ¬ truthy (dget ed "year") then 0
            else
              match yearField ed "year" with
              | Option.none => 0
              | Option.some endYear =>
                let emv := dget ed "month"
                let endMonth :=
                  if ¬ truthy emv || stripChars (pyStr emv).data = [] then 12
                  else parse_month emv
                max 0 ((endYear - startYear) * 12 + (endMonth - startMonth) + 1)

/-- Whether a date dict supplies a usable start year (the combined
falsy/strip/`ValueError` checks of the Python code). -/
def startYearOf (start_date : Option DictV) : Option Int :=
  match start_date with
  | Option.none => Option.none
  | Option.some sd => if sd.isEmpty then Option.none else yearField sd "year"

/-- The end month the code uses when an end year is present: December
when the month field is falsy or blank, `parse_month` otherwise. -/
def endMonthOf (ed : DictV) : Int :=
  if ¬ truthy (dget ed "month") || stripChars (pyStr (dget ed "month")).data = [] then 12
  else parse_month (dget ed "month")

/-! ## `app/exceptions/custom_exceptions.py` -/

/-- A raised `BaseAPIException`: error code, message and HTTP status,
as set by the exception subclasses. -/
structure ApiErr where
  errorCode : String
  message : String
  statusCode : Nat
deriving DecidableEq

def fileProcessingError (m : String) : ApiErr := ⟨"FILE_PROCESSING_ERROR", m, 500⟩

def unsupportedFileTypeError (m : String) : ApiErr := ⟨"UNSUPPORTED_FILE_TYPE", m, 400⟩

def fileSizeLimitError (m : String) : ApiErr := ⟨"FILE_SIZE_LIMIT_EXCEEDED", m, 413⟩

def openAIError (m : String) : ApiErr := ⟨"OPENAI_ERROR", m, 500⟩

def openAIRateLimitError (m : String) : ApiErr := ⟨"OPENAI_RATE_LIMIT", m, 429⟩

def openAIInvalidResponseError (m : String) : ApiErr := ⟨"OPENAI_INVALID_RESPONSE", m, 500⟩

def parserError (m : String) : ApiErr := ⟨"PARSER_ERROR", m, 500⟩

def databaseError (m : String) : ApiErr := ⟨"DATABASE_ERROR", m, 500⟩

def recordNotFoundError (m : String) : ApiErr := ⟨"RECORD_NOT_FOUND", m, 404⟩

def validationError (m : String) : ApiErr := ⟨"VALIDATION_ERROR", m, 422⟩

/-! ## `FileProcessor.guess_mimetype` (`app/utils/file_utils.py`) -/

/-- The keys of `SUPPORTED_HANDLERS` (the source additionally sorts
them into `supported_mimetypes`; only membership matters anywhere). -/
def SUPPORTED_MIMETYPES : List String :=
  [ "application/pdf",
    "text/plain",
    "text/plain; charset=utf-8",
    "text/plain; charset=ascii",
    "application/octet-stream",
    "text/html",
    "text/html; charset=utf-8",
    "application/xhtml+xml",
    "application/msword",
    "application/doc",
    "application/vnd.ms-word",
    "application/vnd.openxmlformats-officedocument.wordprocessingml.document",
    "application/vnd.ms-word.document.macroEnabled.12",
    "text/rtf",
    "application/rtf",
    "text/csv",
    "application/csv",
    "text/tab-separated-values",
    "application/xml",
    "text/xml",
    "image/jpeg",
    "image/jpg",
    "image/png",
    "image/webp",
    "image/gif" ]

/-- `is_image_format`: MIME type starts with `image/`. -/
def isImageFormat (m : String) : Bool := "image/".data.isPrefixOf m.data

/-- Python `str.split(sep)` for a single-character separator. -/
def splitChar (sep : Char) : List Char → List (List Char)
  | [] => [[]]
  | c :: rest =>
      let r := splitChar sep rest
      if c == sep then [] :: r
      else
        match r with
        | [] => [[c]]
        | h :: t => (c :: h) :: t

/-- `_guess_mimetype_from_extension`: lower-cased last dot-segment of
the filename, looked up in `extension_mapping`. -/
def guessMimetypeFromExtension (filename : String) : Option String :=
  if filename.data.isEmpty || ¬ filename.data.contains '.' then Option.none
  else
    match String.mk ((splitChar '.' (lowerChars filename.data)).getLastD []) with
    | "pdf" => Option.some "application/pdf"
    | "txt" => Option.some "text/plain"
    | "html" => Option.some "text/html"
    | "htm" => Option.some "text/html"
    | "doc" => Option.some "application/msword"
    | "docx" =>
        Option.some "application/vnd.openxmlformats-officedocument.wordprocessingml.document"
    | "rtf" => Option.some "text/rtf"
    | "csv" => Option.some "text/csv"
    | "xml" => Option.some "application/xml"
    | "xhtml" => Option.some "application/xhtml+xml"
    | "jpg" => Option.some "image/jpeg"
    | "jpeg" => Option.some "image/jpeg"
    | "png" => Option.some "image/png"
    | "webp" => Option.some "image/webp"
    | "gif" => Option.some "image/gif"
    | _ => Option.none

/-- `guess_mimetype`: content-sniffed type (`sniffed`, the libmagic
result on the bytes) if supported, else the extension-mapped type if
supported, else `UnsupportedFileTypeError`. -/
def guess_mimetype (sniffed : String) (filename : String) : Except ApiErr String :=
  if SUPPORTED_MIMETYPES.contains sniffed then Except.ok sniffed
  else if !filename.data.isEmpty then
    match guessMimetypeFromExtension filename with
    | Option.some em =>
        if SUPPORTED_MIMETYPES.contains em then Except.ok em
        else Except.error (unsupportedFileTypeError ("Unsupported file type: " ++ sniffed))
    | Option.none =>
        Except.error (unsupportedFileTypeError ("Unsupported file type: " ++ sniffed))
  else Except.error (unsupportedFileTypeError ("Unsupported file type: " ++ sniffed))

/-! ## `FileProcessor.clean_text` and `extract_text_from_content`
(`app/utils/file_utils.py`) -/

/-- Helper for the non-greedy regex `<.*?>` (with `.` not matching
newline): scan for the first `>` after a `<`; give the characters after
it, or `none` if a newline or the end of input comes first. -/
def findTagClose : List Char → Option (List Char)
  | [] => Option.none
  | c :: rest =>
      if c == '>' then Option.some rest
      else if c == '\n' then Option.none
      else findTagClose rest

/-- `re.sub("<.*?>", "", text)`: delete every non-greedy match of a
`<`..`>` span on one line.  Structural recursion on a fuel argument
equal to the input length (the recursive call consumes a strict prefix,
so the fuel never runs out). -/
def removeTagsFuel : Nat → List Char → List Char
  | _, [] => []
  | 0, l => l
  | Nat.succ n, c :: rest =>
      if c == '<' then
        match findTagClose rest with
        | Option.some rest2 => removeTagsFuel n rest2
        | Option.none => c :: removeTagsFuel n rest
      else c :: removeTagsFuel n rest

def removeTags (l : List Char) : List Char := removeTagsFuel l.length l

/-- One pass of `re.sub(c+, c, text)`: every maximal run of the
character `c` is replaced by a single `c`.  `inRun` records whether the
previous character was (part of) a run of `c`. -/
def collapseRunGo (c : Char) : Bool → List Char → List Char
  | _, [] => []
  | inRun, a :: rest =>
      if a == c then
        if inRun then collapseRunGo c true rest
        else c :: collapseRunGo c true rest
      else a :: collapseRunGo c false rest

def collapseRun (c : Char) (l : List Char) : List Char := collapseRunGo c false l

/-- `FileProcessor.clean_text` character pipeline: remove HTML tags,
collapse newline runs, collapse double-quote runs, strip. -/
def cleanChars (l : List Char) : List Char :=
  stripChars (collapseRun '"' (collapseRun '\n' (removeTags l)))

/-- `FileProcessor.clean_text`. -/
def clean_text (s : String) : String := String.mk (cleanChars s.data)

/-- `"\n".join(strings)` on character lists. -/
def joinNewline : List String → List Char
  | [] => []
  | [d] => d.data
  | d :: rest => d.data ++ '\n' :: joinNewline rest

/-- `validate_file_size`: `len(content)/(1024*1024) > max_file_size_mb`
raises `FileSizeLimitError` (the float division compared exactly). -/
def validate_file_size (contentLen maxFileSizeMB : Nat) : Except ApiErr Unit :=
  if maxFileSizeMB * 1048576 < contentLen then
    Except.error (fileSizeLimitError
      ("File size exceeds maximum limit of " ++ toString maxFileSizeMB ++ "MB"))
  else Except.ok ()

/-- `FileProcessor.extract_text_from_content`: validate size, detect
MIME type, return empty text for images, otherwise parse (the
per-format parser output is the external parameter `parserDocs`, one
string per yielded document), join with newlines and clean. -/
def extract_text_from_content (contentLen maxFileSizeMB : Nat)
    (sniffed filename : String) (parserDocs : List String) :
    Except ApiErr (String × String) :=
  match validate_file_size contentLen maxFileSizeMB with
  | Except.error e => Except.error e
  | Except.ok _ =>
    match guess_mimetype sniffed filename with
    | Except.error e => Except.error e
    | Except.ok mime =>
        if isImageFormat mime then Except.ok ("", mime)
        else Except.ok (String.mk (cleanChars (joinNewline parserDocs)), mime)

/-- No two adjacent occurrences of the character `c`. -/
def noConsecPair (c : Char) : List Char → Bool
  | [] => true
  | [_] => true
  | a :: b :: rest => !(a == c && b == c) && noConsecPair c (b :: rest)

/-- The first character, if any, differs from `c`. -/
def headNe (c : Char) (l : List Char) : Bool :=
  match l with
  | [] => true
  | a :: _ => !(a == c)

/-- First and last character (if any) are not Python whitespace. -/
def noEdgeSpace (l : List Char) : Bool :=
  (match l with
   | [] => true
   | a :: _ => !isPySpace a) &&
  (match l.getLast? with
   | Option.none => true
   | Option.some b => !isPySpace b)

/-! ## `PyMuPDFParser` (`app/utils/file_utils.py`) -/

/-- A raw PyMuPDF text block as returned by `page.get_text("blocks")`:
`(x0, y0, x1, y1, text, block_no, block_type)`.  The float coordinates
only ever feed the sort key, so they are modelled as integers (any
linearly ordered coordinate type gives the same ordering claims). -/
structure RawBlock where
  x0 : Int
  y0 : Int
  x1 : Int
  y1 : Int
  text : String
  blockNo : Nat
  blockType : Nat
deriving DecidableEq

/-- A collected block dict as built in `lazy_parse` (stripped text plus
1-based page number and position). -/
structure TextBlock where
  text : String
  page : Nat
  x0 : Int
  y0 : Int
  x1 : Int
  y1 : Int
  blockNo : Nat
deriving DecidableEq

/-- The block dict `lazy_parse` appends for a kept raw block. -/
def mkTextBlock (pageNum : Nat) (rb : RawBlock) : TextBlock :=
  ⟨String.mk (stripChars rb.text.data), pageNum, rb.x0, rb.y0, rb.x1, rb.y1, rb.blockNo⟩

/-- The per-page filter of `lazy_parse`: keep only text blocks
(`block[6] == 0`) whose stripped text is non-empty. -/
def collectPage (pageNum : Nat) (pg : List RawBlock) : List TextBlock :=
  pg.filterMap (fun rb =>
    if rb.blockType == 0 then
      if !(stripChars rb.text.data).isEmpty then Option.some (mkTextBlock pageNum rb)
      else Option.none
    else Option.none)

/-- All pages, numbered from `n + 1` upward (`lazy_parse` numbers pages
`page_num + 1` starting at 0). -/
def collectBlocks : Nat → List (List RawBlock) → List TextBlock
  | _, [] => []
  | n, pg :: rest => collectPage (n + 1) pg ++ collectBlocks (n + 1) rest

/-- The sort key comparison `(page, y0, x0)` of
`all_blocks.sort(key=lambda b: (b["page"], b["y0"], b["x0"]))`
(lexicographic tuple order). -/
def blockLe (a b : TextBlock) : Bool :=
  decide (a.page < b.page) ||
    (a.page == b.page &&
      (decide (a.y0 < b.y0) || (a.y0 == b.y0 && decide (a.x0 ≤ b.x0))))

/-- Stable insertion for the model of Python's stable `list.sort`. -/
def insertBlock (a : TextBlock) : List TextBlock → List TextBlock
  | [] => [a]
  | b :: bs => if blockLe a b then a :: b :: bs else b :: insertBlock a bs

/-- Stable sort by `(page, y0, x0)`. -/
def sortBlocks : List TextBlock → List TextBlock
  | [] => []
  | a :: rest => insertBlock a (sortBlocks rest)

/-- `[ \t]+` run membership. -/
def isSpaceTab (c : Char) : Bool := c == ' ' || c == '\t'

/-- `re.sub(class+, rep, text)`: every maximal run of characters
satisfying `p` is replaced by the single character `rep`. -/
def collapseClassGo (p : Char → Bool) (rep : Char) : Bool → List Char → List Char
  | _, [] => []
  | inRun, a :: rest =>
      if p a then
        if inRun then collapseClassGo p rep true rest
        else rep :: collapseClassGo p rep true rest
      else a :: collapseClassGo p rep false rest

/-- `re.sub(r"\n{3,}", "\n\n", text)`: cap every newline run at two.
`k` counts the newlines already kept in the current run. -/
def capNlGo (k : Nat) : List Char → List Char
  | [] => []
  | a :: rest =>
      if a == '\n' then
        if k < 2 then '\n' :: capNlGo (k + 1) rest
        else capNlGo k rest
      else a :: capNlGo 0 rest

def capNewlines (l : List Char) : List Char := capNlGo 0 l

/-- The per-block cleanup of `_structure_blocks`: collapse space/tab
runs to one space, then cap newline runs at two. -/
def cleanBlockText (l : List Char) : List Char :=
  capNewlines (collapseClassGo isSpaceTab ' ' false l)

/-- The `structured_lines` loop of `_structure_blocks`: an empty line
between pages (none before the first block), then the cleaned block
text. -/
def structureLines : Option Nat → List TextBlock → List (List Char)
  | _, [] => []
  | Option.none, b :: rest =>
      cleanBlockText b.text.data :: structureLines (Option.some b.page) rest
  | Option.some p, b :: rest =>
      if p ≠ b.page then
        [] :: cleanBlockText b.text.data :: structureLines (Option.some b.page) rest
      else cleanBlockText b.text.data :: structureLines (Option.some b.page) rest

/-- `"\n".join` on character lists. -/
def intercalateNl : List (List Char) → List Char
  | [] => []
  | [x] => x
  | x :: rest => x ++ '\n' :: intercalateNl rest

/-- `_structure_blocks`: join the structured lines with single
newlines, cap newline runs at two, strip. -/
def structure_blocks (blocks : List TextBlock) : String :=
  if blocks.isEmpty then ""
  else String.mk (stripChars (capNewlines (intercalateNl (structureLines Option.none blocks))))

/-- A parsed document: `page_content` plus the metadata `error` flag. -/
structure PdfDoc where
  page_content : String
  isError : Bool
deriving DecidableEq

/-- `PyMuPDFParser.lazy_parse`: the `fitz` decode outcome is the
external parameter (`Except.error` = any exception inside the `try`,
carrying its message; `Except.ok` = the decoded per-page block lists).
On failure it yields an explanatory error document instead of raising;
on success it filters, sorts and structures the blocks.  A total
function — no exception escapes. -/
def pymupdf_lazy_parse (decoded : Except String (List (List RawBlock))) : PdfDoc :=
  match decoded with
  | Except.error msg => ⟨"Failed to parse PDF: " ++ msg, true⟩
  | Except.ok pages => ⟨structure_blocks (sortBlocks (collectBlocks 0 pages)), false⟩

/-- No three adjacent newline characters. -/
def noTripleNl : List Char → Bool
  | a :: b :: c :: rest =>
      !(a == '\n' && (b == '\n' && c == '\n')) && noTripleNl (b :: c :: rest)
  | _ => true

/-- Number of leading newline characters. -/
def leadNl (l : List Char) : Nat := (l.takeWhile (fun c => c == '\n')).length

/-! ## Parsed-CV values: dict helpers shared by the OpenAI service and
the enrichment utilities -/

/-- Dict assignment `d[k] = v` (replace the existing key or append). -/
def dictSet (d : DictV) (k : String) (v : PyVal) : DictV :=
  if d.any (fun p => p.1 == k) then
    d.map (fun p => if p.1 == k then (p.1, v) else p)
  else d ++ [(k, v)]

/-- Lookup on a `PyVal` known to be a dict (`None` default). -/
def pvLookup (v : PyVal) (k : String) : PyVal :=
  match v with
  | PyVal.dict fs => dget fs k
  | _ => PyVal.none

/-- `d.pop("_metadata", {})`: the popped value and the remaining dict. -/
def popMetadata (v : PyVal) : PyVal × PyVal :=
  match v with
  | PyVal.dict fs =>
      (match fs.find? (fun p => p.1 == "_metadata") with
       | Option.some p => p.2
       | Option.none => PyVal.dict [],
       PyVal.dict (fs.filter (fun p => !(p.1 == "_metadata"))))
  | w => (PyVal.dict [], w)

/-- `d[k] = v` on a `PyVal` dict. -/
def pvSetKey (v : PyVal) (k : String) (x : PyVal) : PyVal :=
  match v with
  | PyVal.dict fs => PyVal.dict (dictSet fs k x)
  | w => w

def pvAsStrOpt : PyVal → Option String
  | PyVal.str s => Option.some s
  | _ => Option.none

def pvAsNatOpt : PyVal → Option Nat
  | PyVal.int n => Option.some n.toNat
  | _ => Option.none

def pvAsDictOpt : PyVal → Option DictV
  | PyVal.dict fs => Option.some fs
  | _ => Option.none

/-! ## Enrichment (`app/utils/experience_utils.py`, continued) -/

/-- `enrich_professional_experiences`: copy each entry and set its
`duration_in_months` from `calculate_duration_in_months`.  Entries whose
`start_date`/`end_date` values are dicts or absent/falsy follow the
annotated `Optional[Dict]` shape; a truthy non-dict date would raise
`AttributeError` in Python and is outside the modelled domain. -/
def enrich_professional_experiences (exps : List DictV)
    (nowYear nowMonth : Int) : List DictV :=
  exps.map (fun exp =>
    dictSet exp "duration_in_months"
      (PyVal.int (calculate_duration_in_months
        (pvAsDictOpt (dget exp "start_date")) (pvAsDictOpt (dget exp "end_date"))
        (truthy (dget exp "is_current")) nowYear nowMonth)))

/-- `enrich_educations`: copy each entry and set `duration_in_years`
to `max 0 (end_year - start_year)` (current year when `is_current`),
`None` when a year is missing or unparseable. -/
def enrich_educations (edus : List DictV) (nowYear : Int) : List DictV :=
  edus.map (fun edu =>
    if ¬ truthy (dget edu "start_year") then
      dictSet edu "duration_in_years" PyVal.none
    else
      match pyParseInt (stripChars (pyStr (dget edu "start_year")).data) with
      | Option.none => dictSet edu "duration_in_years" PyVal.none
      | Option.some start =>
          if truthy (dget edu "is_current") then
            dictSet edu "duration_in_years" (PyVal.int (max 0 (nowYear - start)))
          else if truthy (dget edu "end_year") then
            match pyParseInt (stripChars (pyStr (dget edu "end_year")).data) with
            | Option.none => dictSet edu "duration_in_years" PyVal.none
            | Option.some endY =>
                dictSet edu "duration_in_years" (PyVal.int (max 0 (endY - start)))
          else dictSet edu "duration_in_years" PyVal.none)

/-- `calculate_total_experience_years` up to the final
`round(total_months / 12, 1)`: the summed per-entry months (the float
division and one-decimal rounding add nothing the claims touch). -/
def calculate_total_experience_months (exps : List DictV)
    (nowYear nowMonth : Int) : Int :=
  exps.foldl (fun acc exp =>
    acc + calculate_duration_in_months
      (pvAsDictOpt (dget exp "start_date")) (pvAsDictOpt (dget exp "end_date"))
      (truthy (dget exp "is_current")) nowYear nowMonth) 0

/-! ## `OpenAIService.parse_cv` (`app/services/openai_service.py`) -/

/-- The decodability of the model's message content (`json.loads`). -/
inductive LlmContent where
  | invalidJson (errMsg : String)
  | json (j : PyVal)

/-- Outcome of the external Azure OpenAI chat call. -/
inductive LlmOutcome where
  | rateLimited
  | sdkError (msg : String)
  | unexpectedError (msg : String)
  | response (content : Option LlmContent)

/-- The `_metadata` fields `parse_cv` attaches (timings as integers in
place of rounded floats). -/
structure LlmMeta where
  deployment : String
  tokensUsed : Int
  apiTime : Int
  jsonParseTime : Int
  validationTime : Int
  parseMode : String

def llmMetaVal (m : LlmMeta) : PyVal :=
  PyVal.dict
    [("deployment", PyVal.str m.deployment),
     ("tokens_used", PyVal.int m.tokensUsed),
     ("api_time", PyVal.int m.apiTime),
     ("json_parse_time", PyVal.int m.jsonParseTime),
     ("validation_time", PyVal.int m.validationTime),
     ("parse_mode", PyVal.str m.parseMode)]

/-- `OpenAIService.parse_cv`: the HTTP outcome and the Pydantic
validation result (`Option.some` = the `model_dump`, `Option.none` =
validation failed, raw JSON kept best-effort) are external parameters.
A rate-limited call raises `OpenAIRateLimitError`; empty or non-JSON
content raises `OpenAIInvalidResponseError`; other SDK errors raise
`OpenAIError`; on success the `_metadata` key is attached. -/
def parse_cv (outcome : LlmOutcome) (validated : Option PyVal)
    (meta : LlmMeta) : Except ApiErr PyVal :=
  match outcome with
  | LlmOutcome.rateLimited =>
      Except.error (openAIRateLimitError
        "Azure OpenAI rate limit exceeded. Please try again later.")
  | LlmOutcome.sdkError m =>
      Except.error (openAIError ("Azure OpenAI API error: " ++ m))
  | LlmOutcome.unexpectedError m =>
      Except.error (openAIError ("Failed to parse CV: " ++ m))
  | LlmOutcome.response Option.none =>
      Except.error (openAIInvalidResponseError "OpenAI returned empty content")
  | LlmOutcome.response (Option.some (LlmContent.invalidJson em)) =>
      Except.error (openAIInvalidResponseError ("OpenAI returned invalid JSON: " ++ em))
  | LlmOutcome.response (Option.some (LlmContent.json j)) =>
      Except.ok (pvSetKey (validated.getD j) "_metadata" (llmMetaVal meta))

/-! ## `FileService` (`app/services/file_service.py`) -/

/-- The dictionary `FileService` returns for an extraction (raw bytes
omitted; they are carried by the caller for image inputs). -/
structure ExtractionResult where
  content : String
  mimeType : String
  isImage : Bool
deriving DecidableEq

/-- `FileService.extract_text_from_file`: cache check (the cached value
for the content hash, if any, is the parameter `cached`), then the
processor runs in the thread pool; ANY processor exception — including
`FileSizeLimitError` and `UnsupportedFileTypeError` — is re-raised as
`FileProcessingError("Failed to process file: ...")`. -/
def fileServiceExtractFile (cached : Option ExtractionResult)
    (proc : Except ApiErr (String × String)) : Except ApiErr ExtractionResult :=
  match cached with
  | Option.some r => Except.ok r
  | Option.none =>
      match proc with
      | Except.ok (text, mime) => Except.ok ⟨text, mime, isImageFormat mime⟩
      | Except.error e =>
          Except.error (fileProcessingError ("Failed to process file: " ++ e.message))

/-- `FileService.extract_text_from_content` (no cache): processor
errors re-raised as `FileProcessingError("Failed to extract text: ...")`. -/
def fileServiceExtractContent (proc : Except ApiErr (String × String)) :
    Except ApiErr ExtractionResult :=
  match proc with
  | Except.ok (text, mime) => Except.ok ⟨text, mime, isImageFormat mime⟩
  | Except.error e =>
      Except.error (fileProcessingError ("Failed to extract text: " ++ e.message))

/-! ## Job store (`app/models/parser.py`, `app/repositories/parser_repository.py`) -/

/-- The `status` column values the services write. -/
inductive JobStatus where
  | processing
  | success
  | failed
deriving DecidableEq

/-- A `parsed_cvs` row (timestamps and `stored_file_path`/`_type`
omitted: no claim touches them).  Elapsed times in abstract ticks. -/
structure JobRecord where
  user_id : String
  session_id : String
  parsed_data : PyVal
  input_text : Option String
  file_name : Option String
  file_mime_type : Option String
  cv_language : Option String
  processing_time_seconds : Option Nat
  openai_model : Option String
  tokens_used : Option Nat
  status : JobStatus
  error_message : Option String

/-- The table: rows keyed by the UUID primary key (modelled as `Nat`). -/
abbrev Store : Type := List (Nat × JobRecord)

def storeLookup (st : Store) (id : Nat) : Option JobRecord :=
  match st.find? (fun p => p.1 == id) with
  | Option.some p => Option.some p.2
  | Option.none => Option.none

def storeHas (st : Store) (id : Nat) : Bool :=
  (st.find? (fun p => p.1 == id)).isSome

def storeUpdate (st : Store) (id : Nat) (f : JobRecord → JobRecord) : Store :=
  st.map (fun p => if p.1 == id then (p.1, f p.2) else p)

/-- `ParserRepository.create`: `session.add` + `flush` is a plain SQL
INSERT; a `record_id` already present violates the primary-key unique
constraint, so the flush raises and is re-raised as `DatabaseError`
(there is no ON CONFLICT / merge).  `generatedId` models the
`default=uuid.uuid4` applied when `record_id` is `None`. -/
def repoCreate (st : Store) (user_id session_id : String) (parsed_data : PyVal)
    (input_text file_name file_mime_type cv_language : Option String)
    (processing_time_seconds : Option Nat) (openai_model : Option String)
    (tokens_used : Option Nat) (status : JobStatus) (error_message : Option String)
    (record_id : Option Nat) (generatedId : Nat) : Except ApiErr (Store × Nat) :=
  let id := record_id.getD generatedId
  if storeHas st id then
    Except.error (databaseError
      "Failed to create parsed CV: duplicate key value violates unique constraint")
  else
    Except.ok (st ++ [(id,
      ⟨user_id, session_id, parsed_data, input_text, file_name, file_mime_type,
       cv_language, processing_time_seconds, openai_model, tokens_used,
       status, error_message⟩)], id)

/-- `ParserRepository.update_status`: look the row up, set `status` and
`error_message`, flush; `RecordNotFoundError` when the id is absent. -/
def repoUpdateStatus (st : Store) (record_id : Nat) (status : JobStatus)
    (error_message : Option String) : Except ApiErr Store :=
  if storeHas st record_id then
    Except.ok (storeUpdate st record_id (fun r =>
      { r with status := status, error_message := error_message }))
  else Except.error (recordNotFoundError "Parsed CV not found")

/-! ## `ParserService` (`app/services/parser_service.py`) -/

/-- `create_placeholder_job`: insert a `processing` row with empty
`parsed_data` under the pre-generated job id; repository failures are
re-raised as `ParserError`. -/
def create_placeholder_job (st : Store) (jobId : Nat) (userId sessionId : String)
    (fileName : Option String) : Except ApiErr Store :=
  match repoCreate st userId sessionId (PyVal.dict []) Option.none fileName
      Option.none Option.none Option.none Option.none Option.none
      JobStatus.processing Option.none (Option.some jobId) jobId with
  | Except.ok (st2, _) => Except.ok st2
  | Except.error e => Except.error (parserError ("Failed to create job: " ++ e.message))

/-- The `except` branch of the background runs: write `failed` plus the
message, then the elapsed time; a failing status write is logged and
swallowed, leaving the store unchanged. -/
def bgHandleFailure (st : Store) (jobId : Nat) (msg : String) (elapsed : Nat) : Store :=
  match repoUpdateStatus st jobId JobStatus.failed (Option.some msg) with
  | Except.ok st2 =>
      storeUpdate st2 jobId (fun r => { r with processing_time_seconds := Option.some elapsed })
  | Except.error _ => st

/-- The success write the background runs share: status `success`, then
the full result fields on the re-fetched row. -/
def bgWriteSuccess (st : Store) (jobId : Nat) (parsedResult : PyVal)
    (inputText : String) (mime : Option String) (elapsed : Nat) : Store :=
  let md := (popMetadata parsedResult).1
  let result := (popMetadata parsedResult).2
  match repoUpdateStatus st jobId JobStatus.success Option.none with
  | Except.ok st2 =>
      storeUpdate st2 jobId (fun rec =>
        { rec with
          parsed_data := result,
          input_text := Option.some (String.mk (inputText.data.take 5000)),
          file_mime_type := mime,
          cv_language := pvAsStrOpt (pvLookup result "cv_language"),
          processing_time_seconds := Option.some elapsed,
          openai_model := pvAsStrOpt (pvLookup md "model"),
          tokens_used := pvAsNatOpt (pvLookup md "tokens_used") })
  | Except.error e => bgHandleFailure st jobId e.message elapsed

/-- `process_file_background`: extraction, the short-text validation
and the LLM call run inside one `try`; any exception resolves to the
`failed` write, success to the `success` write.  Nothing is re-raised
out of the task. -/
def process_file_background (st : Store) (jobId : Nat)
    (extraction : Except ApiErr ExtractionResult) (llm : Except ApiErr PyVal)
    (elapsedOk elapsedFail : Nat) : Store :=
  match extraction with
  | Except.error e => bgHandleFailure st jobId e.message elapsedFail
  | Except.ok ex =>
      if ex.content.data.isEmpty || (stripChars ex.content.data).length < 10 then
        bgHandleFailure st jobId "Extracted text is too short to parse" elapsedFail
      else
        match llm with
        | Except.error e => bgHandleFailure st jobId e.message elapsedFail
        | Except.ok parsedResult =>
            bgWriteSuccess st jobId parsedResult ex.content
              (Option.some ex.mimeType) elapsedOk

/-- `process_text_background`: as above for raw text input. -/
def process_text_background (st : Store) (jobId : Nat) (text : String)
    (llm : Except ApiErr PyVal) (elapsedOk elapsedFail : Nat) : Store :=
  if text.data.isEmpty || (stripChars text.data).length < 10 then
    bgHandleFailure st jobId "Text is too short to parse" elapsedFail
  else
    match llm with
    | Except.error e => bgHandleFailure st jobId e.message elapsedFail
    | Except.ok parsedResult =>
        bgWriteSuccess st jobId parsedResult text Option.none elapsedOk

/-- The `except Exception` branch of `parse_from_text`: best-effort
`failed` record (a failing insert is swallowed), then `ParserError`
wrapping only the MESSAGE of the original exception. -/
def parseFromTextFail (st : Store) (userId sessionId text msg : String)
    (genId elapsed : Nat) : Except ApiErr PyVal × Store :=
  match repoCreate st userId sessionId (PyVal.dict [])
      (Option.some (String.mk (text.data.take 5000))) Option.none Option.none
      Option.none (Option.some elapsed) Option.none Option.none
      JobStatus.failed (Option.some msg) Option.none genId with
  | Except.ok (st2, _) =>
      (Except.error (parserError ("Failed to parse CV from text: " ++ msg)), st2)
  | Except.error _ =>
      (Except.error (parserError ("Failed to parse CV from text: " ++ msg)), st)

/-- `parse_from_text` (synchronous submission): short text re-raises
`ValidationError` with no record; an LLM failure stores a `failed`
record and raises `ParserError`; success stores a `success` record with
`_metadata` popped.  The value returned on success is the stored
`parsed_data` (the response envelope adds only echoes of the inputs). -/
def parse_from_text (st : Store) (userId sessionId text : String)
    (llm : Except ApiErr PyVal) (genId genIdFail elapsed : Nat) :
    Except ApiErr PyVal × Store :=
  if text.data.isEmpty || (stripChars text.data).length < 10 then
    (Except.error (validationError "Text is too short to parse"), st)
  else
    match llm with
    | Except.error e => parseFromTextFail st userId sessionId text e.message genIdFail elapsed
    | Except.ok parsedResult =>
        let md := (popMetadata parsedResult).1
        let result := (popMetadata parsedResult).2
        match repoCreate st userId sessionId result
            (Option.some (String.mk (text.data.take 5000))) Option.none Option.none
            (pvAsStrOpt (pvLookup result "cv_language")) (Option.some elapsed)
            (pvAsStrOpt (pvLookup md "model")) (pvAsNatOpt (pvLookup md "tokens_used"))
            JobStatus.success Option.none Option.none genId with
        | Except.ok (st2, _) => (Except.ok result, st2)
        | Except.error e =>
            parseFromTextFail st userId sessionId text e.message genIdFail elapsed

/-- The `except Exception` branch of `parse_from_file`. -/
def parseFromFileFail (st : Store) (userId sessionId : String)
    (fileName : Option String) (msg : String) (genId elapsed : Nat) :
    Except ApiErr PyVal × Store :=
  match repoCreate st userId sessionId (PyVal.dict []) Option.none fileName
      Option.none Option.none (Option.some elapsed) Option.none Option.none
      JobStatus.failed (Option.some msg) Option.none genId with
  | Except.ok (st2, _) =>
      (Except.error (parserError ("Failed to parse CV from file: " ++ msg)), st2)
  | Except.error _ =>
      (Except.error (parserError ("Failed to parse CV from file: " ++ msg)), st)

/-- `parse_from_file` (synchronous submission): the file service
extraction (with its `FileProcessingError` wrapping) feeds the same
validation / LLM / store pipeline as text. -/
def parse_from_file (st : Store) (userId sessionId fileName : String)
    (extraction : Except ApiErr ExtractionResult) (llm : Except ApiErr PyVal)
    (genId genIdFail elapsed : Nat) : Except ApiErr PyVal × Store :=
  match extraction with
  | Except.error e =>
      parseFromFileFail st userId sessionId (Option.some fileName) e.message genIdFail elapsed
  | Except.ok ex =>
      if ex.content.data.isEmpty || (stripChars ex.content.data).length < 10 then
        (Except.error (validationError "Extracted text is too short to parse"), st)
      else
        match llm with
        | Except.error e =>
            parseFromFileFail st userId sessionId (Option.some fileName) e.message genIdFail elapsed
        | Except.ok parsedResult =>
            let md := (popMetadata parsedResult).1
            let result := (popMetadata parsedResult).2
            match repoCreate st userId sessionId result
                (Option.some (String.mk (ex.content.data.take 5000)))
                (Option.some fileName) (Option.some ex.mimeType)
                (pvAsStrOpt (pvLookup result "cv_language")) (Option.some elapsed)
                (pvAsStrOpt (pvLookup md "model")) (pvAsNatOpt (pvLookup md "tokens_used"))
                JobStatus.success Option.none Option.none genId with
            | Except.ok (st2, _) => (Except.ok result, st2)
            | Except.error e =>
                parseFromFileFail st userId sessionId (Option.some fileName)
                  e.message genIdFail elapsed

/-- Every store-mutating operation of the service layer. -/
inductive ServiceOp where
  | createJob (jobId : Nat) (userId sessionId : String) (fileName : Option String)
  | runFile (jobId : Nat) (extraction : Except ApiErr ExtractionResult)
      (llm : Except ApiErr PyVal) (elapsedOk elapsedFail : Nat)
  | runText (jobId : Nat) (text : String) (llm : Except ApiErr PyVal)
      (elapsedOk elapsedFail : Nat)
  | submitText (userId sessionId text : String) (llm : Except ApiErr PyVal)
      (genId genIdFail elapsed : Nat)
  | submitFile (userId sessionId fileName : String)
      (extraction : Except ApiErr ExtractionResult) (llm : Except ApiErr PyVal)
      (genId genIdFail elapsed : Nat)

/-- The store after an operation (a raised exception leaves the store
as the operation left it). -/
def applyOp (st : Store) : ServiceOp → Store
  | ServiceOp.createJob j u s f =>
      match create_placeholder_job st j u s f with
      | Except.ok st2 => st2
      | Except.error _ => st
  | ServiceOp.runFile j ex llm eo ef => process_file_background st j ex llm eo ef
  | ServiceOp.runText j t llm eo ef => process_text_background st j t llm eo ef
  | ServiceOp.submitText u s t llm g gf e => (parse_from_text st u s t llm g gf e).2
  | ServiceOp.submitFile u s f ex llm g gf e =>
      (parse_from_file st u s f ex llm g gf e).2

/-- The error kind a caller of the submission path observes. -/
def surfacedKind : Except ApiErr PyVal × Store → Option String
  | (Except.error e, _) => Option.some e.errorCode
  | (Except.ok _, _) => Option.none

/-! ## Concrete scenario inputs for the submission-path claims -/

/-- Metadata parameters for a concrete LLM call. -/
def c9Meta : LlmMeta := ⟨"gpt-4", 100, 2, 0, 0, "advanced"⟩

/-- A CV text that passes the ≥ 10 character validation. -/
def c9Text : String := "0123456789abc"

/-- The oversized-upload extraction: 50 MB content against the 10 MB
default limit, fed through the file service exactly as
`parse_from_file` does (empty cache). -/
def c4Extraction : Except ApiErr ExtractionResult :=
  fileServiceExtractFile Option.none
    (extract_text_from_content 52428800 10 "application/pdf" "big.pdf" ["doc"])

/-- The synchronous submission of the oversized file into an empty
store. -/
def c4Result : Except ApiErr PyVal × Store :=
  parse_from_file [] "u" "s" "big.pdf" c4Extraction (Except.ok (PyVal.dict [])) 1 2 7

/-- One professional-experience entry as the LLM returns it: March 2020
to March 2021, no duration fields. -/
def c5ExpEntry : DictV :=
  [("company", PyVal.str "Acme Corp"),
   ("title", PyVal.str "Engineer"),
   ("start_date", PyVal.dict [("year", PyVal.str "2020"), ("month", PyVal.str "March")]),
   ("is_current", PyVal.bool false),
   ("end_date", PyVal.dict [("year", PyVal.str "2021"), ("month", PyVal.str "march")])]

def c5Basics : DictV :=
  [("profession", PyVal.str "Engineer"), ("summary", PyVal.str "CV")]

/-- A complete LLM profile payload around that entry. -/
def c5LlmOutput : PyVal :=
  PyVal.dict
    [("profile", PyVal.dict
        [("basics", PyVal.dict c5Basics),
         ("professional_experiences", PyVal.list [PyVal.dict c5ExpEntry])]),
     ("cv_language", PyVal.str "en")]

/-- The store produced by submitting `c9Text` when the LLM returns
`c5LlmOutput` (raw-kept validation path). -/
def c5PipelineStore : Store :=
  (parse_from_text [] "u" "s" c9Text
    (parse_cv (LlmOutcome.response (Option.some (LlmContent.json c5LlmOutput)))
      Option.none c9Meta) 7 8 5).2

/-! ## Content cache (`FileService.__init__`: `TTLCache(maxsize=CACHE_MAX_SIZE,
ttl=CACHE_TTL_SECONDS)`) -/

/-- `CACHE_MAX_SIZE` default from `app/core/config.py`. -/
def CACHE_MAX_SIZE : Nat := 1000

/-- `CACHE_TTL_SECONDS` default from `app/core/config.py`. -/
def CACHE_TTL_SECONDS : Nat := 3600

/-- Modelled from the spec: the cache implementation is
`cachetools.TTLCache`, an external library that is not part of `src/`
(the repository only instantiates it and uses `in` / `[]`).  Per the
spec (§3 cache entry, §4.3, §8): a map from content hash to extraction
result, bounded by a fixed maximum entry count with least-recently-used
eviction once full, whose entries expire a fixed time-to-live after
insertion.  Time is a logical `Nat` clock. -/
structure CacheEntry (α : Type) where
  key : String
  val : α
  expire : Nat
  lastUse : Nat
deriving DecidableEq

/-- Modelled from the spec: the cache state (capacity, TTL, entries). -/
structure TTLCacheModel (α : Type) where
  maxsize : Nat
  ttl : Nat
  entries : List (CacheEntry α)
deriving DecidableEq

/-- The unexpired entries at time `t` (an entry stored at `t0` expires
at `t0 + ttl`). -/
def cacheLive {α : Type} (c : TTLCacheModel α) (t : Nat) : List (CacheEntry α) :=
  c.entries.filter (fun e => decide (t < e.expire))

/-- Modelled from the spec: `lookup(hash)` at time `t` — an expired
entry is treated as a miss regardless of capacity. -/
def cacheLookup {α : Type} (c : TTLCacheModel α) (t : Nat) (k : String) : Option α :=
  match (cacheLive c t).find? (fun e => e.key == k) with
  | Option.some e => Option.some e.val
  | Option.none => Option.none

/-- The least-recently-used entry (first of the minima, matching an
ordered-dict scan). -/
def selectLRU {α : Type} : List (CacheEntry α) → Option (CacheEntry α)
  | [] => Option.none
  | e :: es =>
      Option.some (es.foldl (fun best x => if x.lastUse < best.lastUse then x else best) e)

/-- Modelled from the spec: `store(hash, result)` at time `t` — expired
entries are discarded, an existing key is overwritten, and when the
cache already holds `maxsize` unexpired entries the least-recently-used
one is evicted to make room. -/
def cacheStore {α : Type} (c : TTLCacheModel α) (t : Nat) (k : String) (v : α) :
    TTLCacheModel α :=
  let live := cacheLive c t
  if live.any (fun e => e.key == k) then
    ⟨c.maxsize, c.ttl, live.map (fun e => if e.key == k then ⟨k, v, t + c.ttl, t⟩ else e)⟩
  else if c.maxsize ≤ live.length then
    match selectLRU live with
    | Option.some victim =>
        ⟨c.maxsize, c.ttl,
         (live.filter (fun e => !(e.key == victim.key))) ++ [⟨k, v, t + c.ttl, t⟩]⟩
    | Option.none => ⟨c.maxsize, c.ttl, live ++ [⟨k, v, t + c.ttl, t⟩]⟩
  else ⟨c.maxsize, c.ttl, live ++ [⟨k, v, t + c.ttl, t⟩]⟩

/-! ## Theorems -/

/-- C2: `calculate_duration_in_months` returns 0 when the start year is
missing or non-numeric; with `is_current` it uses the current
year/month as the end bound regardless of any supplied end date;
otherwise it requires an end year (0 if absent or non-numeric) and
defaults a missing/blank end month to 12; month names (full or
three-letter) parse case-insensitively with default 1; the result is
`max 0 ((endYear-startYear)*12 + (endMonth-startMonth) + 1)`; the
March-2020..march-2021 example evaluates to 13.  The function is a
total Lean function on its annotated domain, so no input raises. -/
theorem C2_calculate_duration_in_months_spec :
    (∀ (sd ed : Option DictV) (cur : Bool) (nY nM : Int),
      startYearOf sd = Option.none →
      calculate_duration_in_months sd ed cur nY nM = 0)
  ∧ (∀ (sd : DictV) (ed : Option DictV) (nY nM sy : Int),
      startYearOf (Option.some sd) = Option.some sy →
      calculate_duration_in_months (Option.some sd) ed true nY nM =
        max 0 ((nY - sy) * 12 + (nM - parse_month (dget sd "month")) + 1))
  ∧ (∀ (sd ed : DictV) (nY nM sy ey : Int),
      startYearOf (Option.some sd) = Option.some sy →
      yearField ed "year" = Option.some ey →
      calculate_duration_in_months (Option.some sd) (Option.some ed) false nY nM =
        max 0 ((ey - sy) * 12 + (endMonthOf ed - parse_month (dget sd "month")) + 1))
  ∧ (∀ (sd : DictV) (nY nM sy : Int),
      startYearOf (Option.some sd) = Option.some sy →
      calculate_duration_in_months (Option.some sd) Option.none false nY nM = 0)
  ∧ (∀ (sd ed : DictV) (nY nM sy : Int),
      startYearOf (Option.some sd) = Option.some sy →
      yearField ed "year" = Option.none →
      calculate_duration_in_months (Option.some sd) (Option.some ed) false nY nM = 0)
  ∧ (∀ (nY nM : Int),
      calculate_duration_in_months
        (Option.some [("year", PyVal.str "2020"), ("month", PyVal.str "March")])
        (Option.some [("year", PyVal.str "2021"), ("month", PyVal.str "march")])
        false nY nM = 13)
  ∧ parse_month PyVal.none = 1 := by
  have hyt : ∀ (d : DictV) (sy : Int), yearField d "year" = Option.some sy →
      truthy (dget d "year") = true := by
    intro d sy h
    by_cases ht : truthy (dget d "year") = true
    · exact ht
    · simp [yearField, ht] at h
  refine ⟨?_, ?_, ?_, ?_, ?_, ?_, rfl⟩
  · intro sd ed cur nY nM h
    match sd with
    | Option.none => rfl
    | Option.some d =>
      simp only [startYearOf] at h
      by_cases he : d.isEmpty
      · simp [calculate_duration_in_months, he]
      · simp only [if_neg he] at h
        by_cases ht : truthy (dget d "year") = true
        · simp [calculate_duration_in_months, he, ht, h]
        · simp [calculate_duration_in_months, he, ht]
  · intro sd ed nY nM sy h
    simp only [startYearOf] at h
    by_cases he : sd.isEmpty
    · simp [he] at h
    · simp only [if_neg he] at h
      have ht := hyt sd sy h
      simp [calculate_duration_in_months, he, ht, h]
  · intro sd ed nY nM sy ey hs hey
    simp only [startYearOf] at hs
    by_cases he : sd.isEmpty
    · simp [he] at hs
    · simp only [if_neg he] at hs
      have ht := hyt sd sy hs
      have hte := hyt ed ey hey
      have hene : ed.isEmpty = false := by
        by_cases h2 : ed.isEmpty
        · exfalso
          have : dget ed "year" = PyVal.none := by
            match ed, h2 with
            | [], _ => rfl
          rw [this] at hte
          simp [truthy] at hte
        · simp [h2]
      simp [calculate_duration_in_months, he, ht, hs, hene, hte, hey, endMonthOf]
  · intro sd nY nM sy h
    simp only [startYearOf] at h
    by_cases he : sd.isEmpty
    · simp [he] at h
    · simp only [if_neg he] at h
      have ht := hyt sd sy h
      simp [calculate_duration_in_months, he, ht, h]
  · intro sd ed nY nM sy hs hey
    simp only [startYearOf] at hs
    by_cases he : sd.isEmpty
    · simp [he] at hs
    · simp only [if_neg he] at hs
      have ht := hyt sd sy hs
      by_cases he2 : ed.isEmpty
      · simp [calculate_duration_in_months, he, ht, hs, he2]
      · by_cases ht2 : truthy (dget ed "year") = true
        · simp [calculate_duration_in_months, he, ht, hs, he2, ht2, hey]
        · simp [calculate_duration_in_months, he, ht, hs, he2, ht2]
  · intro nY nM
    rfl

/-- Witness for C2 at concrete inputs: the first conjunct at a
missing-year dict and the current-date conjunct at March 2020 through
October 2025. -/
theorem C2_calculate_duration_in_months_spec_witness :
    calculate_duration_in_months (Option.some [("name", PyVal.str "x")])
      Option.none false 2025 10 = 0
  ∧ calculate_duration_in_months
      (Option.some [("year", PyVal.str "2020"), ("month", PyVal.str "mar")])
      Option.none true 2025 10 = 68 := by
  constructor
  · exact C2_calculate_duration_in_months_spec.1
      (Option.some [("name", PyVal.str "x")]) Option.none false 2025 10 (by decide)
  · have h := C2_calculate_duration_in_months_spec.2.1
      [("year", PyVal.str "2020"), ("month", PyVal.str "mar")]
      Option.none 2025 10 2020 (by decide)
    rw [h]
    decide

/-- C6: format detection is two-tier and closed — a successful result
is always drawn from the fixed supported set; a supported sniffed type
is returned as is; an unsupported sniffed type falls back to the
extension mapping only if that mapping is supported; otherwise the
unsupported-type failure is raised. -/
theorem C6_guess_mimetype_two_tier_closed :
    (∀ (sniffed filename m : String),
      guess_mimetype sniffed filename = Except.ok m →
      m ∈ SUPPORTED_MIMETYPES)
  ∧ (∀ (sniffed filename : String),
      sniffed ∈ SUPPORTED_MIMETYPES →
      guess_mimetype sniffed filename = Except.ok sniffed)
  ∧ (∀ (sniffed filename em : String),
      sniffed ∉ SUPPORTED_MIMETYPES →
      guessMimetypeFromExtension filename = Option.some em →
      em ∈ SUPPORTED_MIMETYPES →
      guess_mimetype sniffed filename = Except.ok em)
  ∧ (∀ (sniffed filename : String),
      sniffed ∉ SUPPORTED_MIMETYPES →
      (∀ em, guessMimetypeFromExtension filename = Option.some em →
        em ∉ SUPPORTED_MIMETYPES) →
      guess_mimetype sniffed filename =
        Except.error (unsupportedFileTypeError ("Unsupported file type: " ++ sniffed))) := by
  have hcneg : ∀ (l : List String) (a : String), a ∉ l → l.contains a = false := by
    intro l a ha
    cases hb : l.contains a with
    | true => exact absurd (List.elem_iff.mp hb) ha
    | false => rfl
  have hcpos : ∀ (l : List String) (a : String), a ∈ l → l.contains a = true := by
    intro l a ha
    exact List.elem_iff.mpr ha
  have hempty : ∀ (l : List Char), ¬ l.isEmpty = true → l.isEmpty = false := by
    intro l hl
    cases hb : l.isEmpty with
    | true => exact absurd hb hl
    | false => rfl
  refine ⟨?_, ?_, ?_, ?_⟩
  · intro sniffed filename m h
    by_cases hs : sniffed ∈ SUPPORTED_MIMETYPES
    · rw [guess_mimetype, hcpos _ _ hs] at h
      simp at h
      rcases h with rfl
      exact hs
    · rw [guess_mimetype, hcneg _ _ hs] at h
      by_cases hf : filename.data.isEmpty
      · rw [hf] at h
        simp at h
      · rw [hempty _ hf] at h
        cases hfe : guessMimetypeFromExtension filename with
        | none =>
          rw [hfe] at h
          simp at h
        | some em =>
          rw [hfe] at h
          dsimp only at h
          by_cases hem : em ∈ SUPPORTED_MIMETYPES
          · rw [hcpos _ _ hem] at h
            simp at h
            rcases h with rfl
            exact hem
          · rw [hcneg _ _ hem] at h
            simp at h
  · intro sniffed filename hs
    rw [guess_mimetype, hcpos _ _ hs]
    simp
  · intro sniffed filename em hs hfe hem
    have hf2 : filename.data.isEmpty = false := by
      by_cases h2 : filename.data.isEmpty
      · simp [guessMimetypeFromExtension, h2] at hfe
      · exact hempty _ h2
    rw [guess_mimetype, hcneg _ _ hs, hf2, hfe]
    dsimp only
    rw [hcpos _ _ hem]
    simp
  · intro sniffed filename hs hall
    rw [guess_mimetype, hcneg _ _ hs]
    by_cases hf : filename.data.isEmpty
    · rw [hf]
      simp
    · rw [hempty _ hf]
      cases hfe : guessMimetypeFromExtension filename with
      | none => simp
      | some em =>
        dsimp only
        rw [hcneg _ _ (hall em hfe)]
        simp

/-- Witness for C6 at concrete inputs: an unknown sniffed type with a
`.PDF` extension falls back to `application/pdf`, which is in the
supported set, and a `.zip` upload sniffed as `application/zip` raises
the unsupported-type failure. -/
theorem C6_guess_mimetype_two_tier_closed_witness :
    "application/pdf" ∈ SUPPORTED_MIMETYPES
  ∧ guess_mimetype "application/x-empty" "cv.PDF" = Except.ok "application/pdf"
  ∧ guess_mimetype "application/zip" "cv.zip" =
      Except.error (unsupportedFileTypeError ("Unsupported file type: " ++ "application/zip")) := by
  refine ⟨?_, ?_, ?_⟩
  · exact C6_guess_mimetype_two_tier_closed.1 "application/x-empty" "cv.PDF"
      "application/pdf" rfl
  · exact C6_guess_mimetype_two_tier_closed.2.2.1 "application/x-empty" "cv.PDF"
      "application/pdf" (by decide) (by decide) (by decide)
  · exact C6_guess_mimetype_two_tier_closed.2.2.2 "application/zip" "cv.zip"
      (by decide)
      (by
        intro em h
        rw [show guessMimetypeFromExtension "cv.zip" = (Option.none : Option String)
              from by decide] at h
        exact Option.noConfusion h)

theorem ncp_tail (c a : Char) (l : List Char)
    (h : noConsecPair c (a :: l) = true) : noConsecPair c l = true := by
  cases l with
  | nil => rfl
  | cons b r =>
    simp only [noConsecPair, Bool.and_eq_true] at h
    exact h.2

theorem ncp_cons (c a : Char) (l : List Char)
    (h1 : (a == c) = false ∨ headNe c l = true)
    (h2 : noConsecPair c l = true) : noConsecPair c (a :: l) = true := by
  cases l with
  | nil => rfl
  | cons b r =>
    simp only [noConsecPair, Bool.and_eq_true]
    refine ⟨?_, h2⟩
    cases h1 with
    | inl h1 => simp [h1]
    | inr h1 =>
      simp only [headNe, Bool.not_eq_eq_eq_not, Bool.not_true] at h1
      simp [h1]

theorem ncp_head_of_eq (c a : Char) (l : List Char)
    (h : noConsecPair c (a :: l) = true) (ha : (a == c) = true) :
    headNe c l = true := by
  cases l with
  | nil => rfl
  | cons b r =>
    simp only [noConsecPair, Bool.and_eq_true, Bool.not_eq_true', Bool.and_eq_false_iff] at h
    rcases h.1 with h1 | h1
    · rw [ha] at h1
      exact Bool.noConfusion h1
    · simp [headNe, h1]

theorem headNe_go_true (c : Char) : ∀ (l : List Char),
    headNe c (collapseRunGo c true l) = true := by
  intro l
  induction l with
  | nil => rfl
  | cons a rest ih =>
    by_cases ha : (a == c) = true
    · simp only [collapseRunGo, ha, if_true]
      exact ih
    · simp only [Bool.not_eq_true] at ha
      simp only [collapseRunGo, ha, Bool.false_eq_true, if_false]
      simp [headNe, ha]

theorem ncp_collapseRun_self (c : Char) : ∀ (l : List Char) (b : Bool),
    noConsecPair c (collapseRunGo c b l) = true := by
  intro l
  induction l with
  | nil => intro b; rfl
  | cons a rest ih =>
    intro b
    by_cases ha : (a == c) = true
    · cases b with
      | true =>
        simp only [collapseRunGo, ha, if_true]
        exact ih true
      | false =>
        simp only [collapseRunGo, ha, if_true]
        exact ncp_cons c c _ (Or.inr (headNe_go_true c rest)) (ih true)
    · simp only [Bool.not_eq_true] at ha
      simp only [collapseRunGo, ha, Bool.false_eq_true, if_false]
      exact ncp_cons c a _ (Or.inl ha) (ih false)

theorem headNe_go_false (c d : Char) (hne : (c == d) = false) (l : List Char)
    (h : headNe d l = true) : headNe d (collapseRunGo c false l) = true := by
  cases l with
  | nil => rfl
  | cons a rest =>
    by_cases ha : (a == c) = true
    · simp only [collapseRunGo, ha, if_true]
      simp [headNe, hne]
    · simp only [Bool.not_eq_true] at ha
      simp only [collapseRunGo, ha, Bool.false_eq_true, if_false]
      simp only [headNe] at h ⊢
      exact h

theorem ncp_collapseRun_other (c d : Char) (hne : (c == d) = false) :
    ∀ (l : List Char) (b : Bool), noConsecPair d l = true →
    noConsecPair d (collapseRunGo c b l) = true := by
  intro l
  induction l with
  | nil => intro b _; rfl
  | cons a rest ih =>
    intro b h
    have hrest := ncp_tail d a rest h
    by_cases ha : (a == c) = true
    · cases b with
      | true =>
        simp only [collapseRunGo, ha, if_true]
        exact ih true hrest
      | false =>
        simp only [collapseRunGo, ha, if_true]
        exact ncp_cons d c _ (Or.inl hne) (ih true hrest)
    · simp only [Bool.not_eq_true] at ha
      simp only [collapseRunGo, ha, Bool.false_eq_true, if_false]
      by_cases had : (a == d) = true
      · exact ncp_cons d a _
          (Or.inr (headNe_go_false c d hne rest (ncp_head_of_eq d a rest h had)))
          (ih false hrest)
      · simp only [Bool.not_eq_true] at had
        exact ncp_cons d a _ (Or.inl had) (ih false hrest)

theorem ncp_dropWhile (c : Char) (p : Char → Bool) : ∀ (l : List Char),
    noConsecPair c l = true → noConsecPair c (l.dropWhile p) = true := by
  intro l
  induction l with
  | nil => intro _; rfl
  | cons a rest ih =>
    intro h
    by_cases hp : p a = true
    · simp only [List.dropWhile_cons, hp, if_true]
      exact ih (ncp_tail c a rest h)
    · simp only [Bool.not_eq_true] at hp
      simp only [List.dropWhile_cons, hp, Bool.false_eq_true, if_false]
      exact h

theorem dtw_head (p : Char → Bool) : ∀ (l : List Char) (b : Char) (r : List Char),
    dropTrailWhile p l = b :: r → l.head? = Option.some b := by
  intro l
  cases l with
  | nil => intro b r h; exact List.noConfusion h
  | cons a rest =>
    intro b r h
    simp only [dropTrailWhile] at h
    cases hd : dropTrailWhile p rest with
    | nil =>
      rw [hd] at h
      by_cases hp : p a = true
      · rw [if_pos hp] at h
        exact List.noConfusion h
      · simp only [Bool.not_eq_true] at hp
        rw [hp] at h
        simp only [Bool.false_eq_true, if_false] at h
        cases h
        rfl
    | cons x r2 =>
      rw [hd] at h
      cases h
      rfl

theorem ncp_dropTrailWhile (c : Char) (p : Char → Bool) : ∀ (l : List Char),
    noConsecPair c l = true → noConsecPair c (dropTrailWhile p l) = true := by
  intro l
  induction l with
  | nil => intro _; rfl
  | cons a rest ih =>
    intro h
    have hrest := ncp_tail c a rest h
    simp only [dropTrailWhile]
    cases hd : dropTrailWhile p rest with
    | nil =>
      by_cases hp : p a = true
      · simp [hp, noConsecPair]
      · simp only [Bool.not_eq_true] at hp
        simp [hp, noConsecPair]
    | cons x r2 =>
      have hx := dtw_head p rest x r2 hd
      cases rest with
      | nil => exact Option.noConfusion hx
      | cons y rest2 =>
        have hyx : y = x := by
          simp only [List.head?] at hx
          injection hx
        dsimp only
        have hpair : (!(a == c && x == c)) = true := by
          rw [← hyx]
          simp only [noConsecPair, Bool.and_eq_true] at h
          exact h.1
        simp only [noConsecPair, Bool.and_eq_true]
        refine ⟨hpair, ?_⟩
        rw [← hd]
        exact ih hrest

theorem dtw_last_not (p : Char → Bool) : ∀ (l : List Char) (b : Char),
    (dropTrailWhile p l).getLast? = Option.some b → p b = false := by
  intro l
  induction l with
  | nil => intro b h; exact Option.noConfusion h
  | cons a rest ih =>
    intro b h
    simp only [dropTrailWhile] at h
    cases hd : dropTrailWhile p rest with
    | nil =>
      rw [hd] at h
      by_cases hp : p a = true
      · rw [if_pos hp] at h
        exact Option.noConfusion h
      · simp only [Bool.not_eq_true] at hp
        rw [hp] at h
        simp only [Bool.false_eq_true, if_false, List.getLast?_singleton] at h
        injection h with h
        subst h
        exact hp
    | cons x r2 =>
      rw [hd] at h
      rw [List.getLast?_cons_cons] at h
      rw [← hd] at h
      exact ih b h

theorem dropWhile_head_not (p : Char → Bool) : ∀ (l : List Char) (b : Char),
    (l.dropWhile p).head? = Option.some b → p b = false := by
  intro l
  induction l with
  | nil => intro b h; exact Option.noConfusion h
  | cons a rest ih =>
    intro b h
    by_cases hp : p a = true
    · simp only [List.dropWhile_cons, hp, if_true] at h
      exact ih b h
    · simp only [Bool.not_eq_true] at hp
      simp only [List.dropWhile_cons, hp, Bool.false_eq_true, if_false, List.head?] at h
      injection h with h
      subst h
      exact hp

theorem noEdgeSpace_strip (l : List Char) : noEdgeSpace (stripChars l) = true := by
  simp only [noEdgeSpace, Bool.and_eq_true]
  constructor
  · cases hh : stripChars l with
    | nil => rfl
    | cons a r =>
      have := dtw_head isPySpace (l.dropWhile isPySpace) a r hh
      have ha := dropWhile_head_not isPySpace l a this
      simp [ha]
  · cases hh : (stripChars l).getLast? with
    | none => rfl
    | some b =>
      have hb := dtw_last_not isPySpace (l.dropWhile isPySpace) b hh
      simp [hb]

theorem cleanChars_props (l : List Char) :
    noConsecPair '\n' (cleanChars l) = true
    ∧ noConsecPair '"' (cleanChars l) = true
    ∧ noEdgeSpace (cleanChars l) = true := by
  refine ⟨?_, ?_, ?_⟩
  · exact ncp_dropTrailWhile _ _ _ (ncp_dropWhile _ _ _
      (ncp_collapseRun_other '"' '\n' (by decide) _ false
        (ncp_collapseRun_self '\n' _ false)))
  · exact ncp_dropTrailWhile _ _ _ (ncp_dropWhile _ _ _
      (ncp_collapseRun_self '"' _ false))
  · exact noEdgeSpace_strip _

/-- C10: `clean_text` output has no leading or trailing whitespace, no
two consecutive newline characters, and no two consecutive double
quotes; consequently the text part of every non-image
`extract_text_from_content` result contains no pair of adjacent
newlines — i.e. no empty line, so the PDF extractor's double-newline
paragraph separators do not survive to the final extracted text. -/
theorem C10_clean_text_and_extract_no_blank_lines :
    (∀ s : String,
      noConsecPair '\n' (clean_text s).data = true
      ∧ noConsecPair '"' (clean_text s).data = true
      ∧ noEdgeSpace (clean_text s).data = true)
  ∧ (∀ (contentLen maxMB : Nat) (sniffed filename : String)
      (parserDocs : List String) (t m : String),
      extract_text_from_content contentLen maxMB sniffed filename parserDocs =
        Except.ok (t, m) →
      isImageFormat m = false →
      noConsecPair '\n' t.data = true) := by
  constructor
  · intro s
    exact cleanChars_props s.data
  · intro contentLen maxMB sniffed filename parserDocs t m h him
    unfold extract_text_from_content at h
    cases hv : validate_file_size contentLen maxMB with
    | error e => rw [hv] at h; exact Except.noConfusion h
    | ok u =>
      rw [hv] at h
      dsimp only at h
      cases hm : guess_mimetype sniffed filename with
      | error e => rw [hm] at h; exact Except.noConfusion h
      | ok mime =>
        rw [hm] at h
        dsimp only at h
        by_cases hi : isImageFormat mime = true
        · rw [hi] at h
          simp only [if_true] at h
          injection h with h2
          injection h2 with h3 h4
          rw [h4] at hi
          rw [him] at hi
          exact Bool.noConfusion hi
        · simp only [Bool.not_eq_true] at hi
          rw [hi] at h
          simp only [Bool.false_eq_true, if_false] at h
          injection h with h2
          injection h2 with h3 h4
          rw [← h3]
          exact (cleanChars_props (joinNewline parserDocs)).1

/-- Witness for C10's second part at a concrete plain-text input. -/
theorem C10_clean_text_and_extract_no_blank_lines_witness :
    noConsecPair '\n' (String.mk (cleanChars (joinNewline ["hello", "world"]))).data = true := by
  exact C10_clean_text_and_extract_no_blank_lines.2 10 10 "text/plain" "a.txt"
    ["hello", "world"] (String.mk (cleanChars (joinNewline ["hello", "world"])))
    "text/plain" rfl (by decide)

theorem blockLe_total (a b : TextBlock) : (blockLe a b || blockLe b a) = true := by
  simp only [blockLe, Bool.or_eq_true, Bool.and_eq_true, decide_eq_true_eq, beq_iff_eq]
  omega

theorem blockLe_trans (a b c : TextBlock) (h1 : blockLe a b = true)
    (h2 : blockLe b c = true) : blockLe a c = true := by
  simp only [blockLe, Bool.or_eq_true, Bool.and_eq_true, decide_eq_true_eq, beq_iff_eq] at h1 h2 ⊢
  omega

theorem perm_insertBlock (a : TextBlock) : ∀ (l : List TextBlock),
    (insertBlock a l).Perm (a :: l) := by
  intro l
  induction l with
  | nil => exact List.Perm.refl _
  | cons b bs ih =>
    by_cases h : blockLe a b = true
    · simp only [insertBlock, h, if_true]
      exact List.Perm.refl _
    · simp only [Bool.not_eq_true] at h
      simp only [insertBlock, h, Bool.false_eq_true, if_false]
      exact (ih.cons b).trans (List.Perm.swap a b bs)

theorem sortBlocks_perm : ∀ (l : List TextBlock), (sortBlocks l).Perm l := by
  intro l
  induction l with
  | nil => exact List.Perm.refl _
  | cons a rest ih =>
    exact (perm_insertBlock a (sortBlocks rest)).trans (ih.cons a)

theorem pairwise_insertBlock (a : TextBlock) : ∀ (l : List TextBlock),
    List.Pairwise (fun x y => blockLe x y = true) l →
    List.Pairwise (fun x y => blockLe x y = true) (insertBlock a l) := by
  intro l
  induction l with
  | nil =>
    intro _
    simp [insertBlock]
  | cons b bs ih =>
    intro h
    rcases List.pairwise_cons.mp h with ⟨hb, hbs⟩
    by_cases hab : blockLe a b = true
    · simp only [insertBlock, hab, if_true]
      refine List.pairwise_cons.mpr ⟨?_, h⟩
      intro x hx
      rcases List.mem_cons.mp hx with rfl | hx2
      · exact hab
      · exact blockLe_trans a b x hab (hb x hx2)
    · simp only [Bool.not_eq_true] at hab
      simp only [insertBlock, hab, Bool.false_eq_true, if_false]
      refine List.pairwise_cons.mpr ⟨?_, ih hbs⟩
      intro x hx
      have hx2 := (perm_insertBlock a bs).mem_iff.mp hx
      rcases List.mem_cons.mp hx2 with rfl | hx3
      · have h0 := blockLe_total x b
        rw [hab] at h0
        simpa using h0
      · exact hb x hx3

theorem sortBlocks_pairwise : ∀ (l : List TextBlock),
    List.Pairwise (fun x y => blockLe x y = true) (sortBlocks l) := by
  intro l
  induction l with
  | nil => exact List.Pairwise.nil
  | cons a rest ih => exact pairwise_insertBlock a (sortBlocks rest) ih

theorem noTriple_tail (a : Char) (l : List Char)
    (h : noTripleNl (a :: l) = true) : noTripleNl l = true := by
  match l with
  | [] => rfl
  | [_] => rfl
  | b :: c :: r =>
    simp only [noTripleNl, Bool.and_eq_true] at h
    exact h.2

theorem noTriple_cons_other (a : Char) (l : List Char) (ha : (a == '\n') = false)
    (h : noTripleNl l = true) : noTripleNl (a :: l) = true := by
  match l with
  | [] => rfl
  | [_] => rfl
  | b :: c :: r =>
    simp only [noTripleNl, Bool.and_eq_true]
    exact ⟨by simp [ha], h⟩

theorem leadNl_cons_nl (l : List Char) : leadNl ('\n' :: l) = leadNl l + 1 := by
  simp [leadNl, List.takeWhile]

theorem leadNl_cons_other (a : Char) (l : List Char) (ha : (a == '\n') = false) :
    leadNl (a :: l) = 0 := by
  simp [leadNl, List.takeWhile, ha]

theorem noTriple_cons_nl (l : List Char) (hl : leadNl l ≤ 1)
    (h : noTripleNl l = true) : noTripleNl ('\n' :: l) = true := by
  match l with
  | [] => rfl
  | [_] => rfl
  | b :: c :: r =>
    simp only [noTripleNl, Bool.and_eq_true]
    refine ⟨?_, h⟩
    by_cases hb : (b == '\n') = true
    · by_cases hc : (c == '\n') = true
      · exfalso
        have hb2 := beq_iff_eq.mp hb
        have hc2 := beq_iff_eq.mp hc
        subst hb2
        subst hc2
        rw [leadNl_cons_nl, leadNl_cons_nl] at hl
        omega
      · simp only [Bool.not_eq_true] at hc
        simp [hc]
    · simp only [Bool.not_eq_true] at hb
      simp [hb]

theorem capNlGo_spec : ∀ (l : List Char) (k : Nat), k ≤ 2 →
    noTripleNl (capNlGo k l) = true ∧ leadNl (capNlGo k l) + k ≤ 2 := by
  intro l
  induction l with
  | nil =>
    intro k hk
    exact ⟨rfl, by simp [leadNl, List.takeWhile]; omega⟩
  | cons a rest ih =>
    intro k hk
    by_cases ha : (a == '\n') = true
    · by_cases hkk : k < 2
      · simp only [capNlGo, ha, if_true, if_pos hkk]
        obtain ⟨ht, hl⟩ := ih (k + 1) (by omega)
        refine ⟨noTriple_cons_nl _ (by omega) ht, ?_⟩
        rw [leadNl_cons_nl]
        omega
      · simp only [capNlGo, ha, if_true, if_neg hkk]
        exact ih k hk
    · simp only [Bool.not_eq_true] at ha
      simp only [capNlGo, ha, Bool.false_eq_true, if_false]
      obtain ⟨ht, hl⟩ := ih 0 (by omega)
      refine ⟨noTriple_cons_other a _ ha ht, ?_⟩
      rw [leadNl_cons_other a _ ha]
      omega

theorem noTriple_append_left : ∀ (l t : List Char),
    noTripleNl (l ++ t) = true → noTripleNl l = true := by
  intro l
  induction l with
  | nil => intro t _; rfl
  | cons a l2 ih =>
    intro t h
    match l2, h with
    | [], _ => rfl
    | [x], _ => rfl
    | b :: c :: r, h =>
      simp only [List.cons_append, noTripleNl, Bool.and_eq_true] at h
      simp only [noTripleNl, Bool.and_eq_true]
      refine ⟨h.1, ?_⟩
      have := ih t
      simp only [List.cons_append] at this
      exact this h.2

theorem noTriple_append_right : ∀ (s l : List Char),
    noTripleNl (s ++ l) = true → noTripleNl l = true := by
  intro s
  induction s with
  | nil => intro l h; exact h
  | cons a s2 ih =>
    intro l h
    exact ih l (noTriple_tail a (s2 ++ l) h)

theorem dtw_decomp (p : Char → Bool) : ∀ (l : List Char),
    ∃ t, l = dropTrailWhile p l ++ t := by
  intro l
  induction l with
  | nil => exact ⟨[], rfl⟩
  | cons a rest ih =>
    obtain ⟨t, ht⟩ := ih
    simp only [dropTrailWhile]
    cases hd : dropTrailWhile p rest with
    | nil =>
      by_cases hp : p a = true
      · rw [if_pos hp]
        exact ⟨a :: rest, rfl⟩
      · simp only [Bool.not_eq_true] at hp
        rw [hp]
        simp only [Bool.false_eq_true, if_false]
        rw [hd] at ht
        simp only [List.nil_append] at ht
        exact ⟨rest, by rw [List.cons_append, List.nil_append]⟩
    | cons x r2 =>
      rw [hd] at ht
      exact ⟨t, by rw [List.cons_append, ← ht]⟩

theorem noTriple_strip (l : List Char) (h : noTripleNl l = true) :
    noTripleNl (stripChars l) = true := by
  have h1 : noTripleNl (l.dropWhile isPySpace) = true := by
    apply noTriple_append_right (l.takeWhile isPySpace)
    rw [List.takeWhile_append_dropWhile]
    exact h
  obtain ⟨t, ht⟩ := dtw_decomp isPySpace (l.dropWhile isPySpace)
  rw [ht] at h1
  exact noTriple_append_left _ t h1

theorem structure_blocks_noTriple (blocks : List TextBlock) :
    noTripleNl (structure_blocks blocks).data = true := by
  by_cases hb : blocks.isEmpty
  · simp [structure_blocks, hb]
    rfl
  · have hb2 : blocks.isEmpty = false := by
      cases h2 : blocks.isEmpty with
      | true => exact absurd h2 hb
      | false => rfl
    simp only [structure_blocks, hb2, Bool.false_eq_true, if_false]
    exact noTriple_strip _
      ((capNlGo_spec (intercalateNl (structureLines Option.none blocks)) 0 (by omega)).1)

/-- C7: the structured PDF extractor keeps exactly the non-empty text
blocks (discarding image blocks), orders them by page, then `y0`, then
`x0`, and its assembled output never contains three consecutive
newlines (the `\n{3,}` collapse to exactly two); on a decode failure it
yields a document whose content explains the failure — `lazy_parse` is
a total function, so nothing is raised. -/
theorem C7_pdf_extractor_blocks_sorted_capped :
    (∀ msg, pymupdf_lazy_parse (Except.error msg) =
      ⟨"Failed to parse PDF: " ++ msg, true⟩)
  ∧ (∀ pages, pymupdf_lazy_parse (Except.ok pages) =
      ⟨structure_blocks (sortBlocks (collectBlocks 0 pages)), false⟩)
  ∧ (∀ pages, List.Pairwise (fun x y => blockLe x y = true)
      (sortBlocks (collectBlocks 0 pages)))
  ∧ (∀ pages, (sortBlocks (collectBlocks 0 pages)).Perm (collectBlocks 0 pages))
  ∧ (∀ (n : Nat) (pg : List RawBlock) (b : TextBlock),
      b ∈ collectPage n pg ↔
        ∃ rb, rb ∈ pg ∧ rb.blockType = 0 ∧
          (stripChars rb.text.data).isEmpty = false ∧ b = mkTextBlock n rb)
  ∧ (∀ blocks, noTripleNl (structure_blocks blocks).data = true) := by
  refine ⟨fun msg => rfl, fun pages => rfl, ?_, ?_, ?_, structure_blocks_noTriple⟩
  · intro pages
    exact sortBlocks_pairwise _
  · intro pages
    exact sortBlocks_perm _
  · intro n pg b
    simp only [collectPage, List.mem_filterMap]
    constructor
    · rintro ⟨rb, hm, hf⟩
      by_cases ht : (rb.blockType == 0) = true
      · rw [if_pos ht] at hf
        by_cases he : (stripChars rb.text.data).isEmpty = true
        · rw [he] at hf
          simp only [Bool.not_true, Bool.false_eq_true, if_false] at hf
          exact Option.noConfusion hf
        · have he2 : (stripChars rb.text.data).isEmpty = false := by
            cases h2 : (stripChars rb.text.data).isEmpty with
            | true => exact absurd h2 he
            | false => rfl
          rw [he2] at hf
          simp only [Bool.not_false, if_true] at hf
          injection hf with hf2
          exact ⟨rb, hm, beq_iff_eq.mp ht, he2, hf2.symm⟩
      · rw [if_neg ht] at hf
        exact Option.noConfusion hf
    · rintro ⟨rb, hm, ht, he, rfl⟩
      refine ⟨rb, hm, ?_⟩
      rw [if_pos (beq_iff_eq.mpr ht), he]
      simp

/-- Witness for C7 at a concrete page list: one page holding an image
block, a whitespace-only text block and two out-of-order text blocks;
the extractor keeps exactly the two text blocks, in (y0, x0) order, and
the assembled content is the two texts joined by one newline. -/
theorem C7_pdf_extractor_blocks_sorted_capped_witness :
    pymupdf_lazy_parse (Except.ok
      [[⟨0, 50, 10, 60, "lower block", 0, 0⟩,
        ⟨0, 10, 10, 20, "upper block", 1, 0⟩,
        ⟨0, 0, 10, 5, "   ", 2, 0⟩,
        ⟨0, 0, 10, 5, "image", 3, 1⟩]]) =
      ⟨"upper block\nlower block", false⟩
  ∧ (⟨"upper block", 1, 0, 10, 10, 20, 1⟩ : TextBlock) ∈ collectPage 1
      [⟨0, 50, 10, 60, "lower block", 0, 0⟩, ⟨0, 10, 10, 20, "upper block", 1, 0⟩] := by
  constructor
  · rfl
  · exact (C7_pdf_extractor_blocks_sorted_capped.2.2.2.2.1 1
      [⟨0, 50, 10, 60, "lower block", 0, 0⟩, ⟨0, 10, 10, 20, "upper block", 1, 0⟩]
      ⟨"upper block", 1, 0, 10, 10, 20, 1⟩).mpr
      ⟨⟨0, 10, 10, 20, "upper block", 1, 0⟩, by decide, rfl, by decide, by decide⟩

theorem storeHas_false_find (st : Store) (j : Nat) (h : storeHas st j = false) :
    st.find? (fun p => p.1 == j) = Option.none := by
  unfold storeHas at h
  cases hf : st.find? (fun p => p.1 == j) with
  | none => rfl
  | some p =>
    rw [hf] at h
    simp at h

theorem storeHas_false_lookup (st : Store) (j : Nat) (h : storeHas st j = false) :
    storeLookup st j = Option.none := by
  unfold storeLookup
  rw [storeHas_false_find st j h]

theorem storeHas_true_exists (st : Store) (j : Nat) (h : storeHas st j = true) :
    ∃ r, storeLookup st j = Option.some r := by
  unfold storeHas at h
  unfold storeLookup
  cases hf : st.find? (fun p => p.1 == j) with
  | none =>
    rw [hf] at h
    simp at h
  | some p => exact ⟨p.2, rfl⟩

theorem storeLookup_append_fresh (st : Store) (j : Nat) (r : JobRecord)
    (h : storeHas st j = false) : storeLookup (st ++ [(j, r)]) j = Option.some r := by
  unfold storeLookup
  rw [List.find?_append, storeHas_false_find st j h]
  simp

theorem storeLookup_append_left (st l2 : Store) (i : Nat) (r : JobRecord)
    (h : storeLookup st i = Option.some r) :
    storeLookup (st ++ l2) i = Option.some r := by
  unfold storeLookup at h ⊢
  rw [List.find?_append]
  cases hf : st.find? (fun p => p.1 == i) with
  | none =>
    rw [hf] at h
    exact Option.noConfusion h
  | some p =>
    rw [hf] at h
    dsimp only [Option.or]
    exact h

theorem storeLookup_update_self (st : Store) (j : Nat) (f : JobRecord → JobRecord) :
    storeLookup (storeUpdate st j f) j = (storeLookup st j).map f := by
  unfold storeLookup storeUpdate
  induction st with
  | nil => rfl
  | cons p rest ih =>
    by_cases hp : (p.1 == j) = true
    · simp only [List.map_cons, hp, if_true, List.find?_cons, hp]
      simp [hp]
    · have hp2 : (p.1 == j) = false := by
        cases hb : (p.1 == j) with
        | true => exact absurd hb hp
        | false => rfl
      simp only [List.map_cons, hp2, Bool.false_eq_true, if_false, List.find?_cons]
      exact ih

theorem storeLookup_update_ne (st : Store) (j i : Nat) (f : JobRecord → JobRecord)
    (h : (i == j) = false) :
    storeLookup (storeUpdate st j f) i = storeLookup st i := by
  unfold storeLookup storeUpdate
  induction st with
  | nil => rfl
  | cons p rest ih =>
    by_cases hp : (p.1 == j) = true
    · have hpi : (p.1 == i) = false := by
        have h1 := eq_of_beq hp
        cases hb : (p.1 == i) with
        | true =>
          have h2 := eq_of_beq hb
          rw [← h1, h2] at h
          simp at h
        | false => rfl
      simp only [List.map_cons, hp, if_true, List.find?_cons]
      simp only [hpi, Bool.false_eq_true, if_false]
      exact ih
    · have hp2 : (p.1 == j) = false := by
        cases hb : (p.1 == j) with
        | true => exact absurd hb hp
        | false => rfl
      simp only [List.map_cons, hp2, Bool.false_eq_true, if_false, List.find?_cons]
      by_cases hpi : (p.1 == i) = true
      · simp [hpi]
      · have hpi2 : (p.1 == i) = false := by
          cases hb : (p.1 == i) with
          | true => exact absurd hb hpi
          | false => rfl
        simp only [hpi2]
        exact ih

theorem beq_false_of_ne (i j : Nat) (h : ¬ (i == j) = true) : (i == j) = false := by
  cases hb : (i == j) with
  | true => exact absurd hb h
  | false => rfl

theorem bgHandleFailure_skip (st : Store) (j : Nat) (msg : String) (el : Nat)
    (h : storeHas st j = false) : bgHandleFailure st j msg el = st := by
  unfold bgHandleFailure repoUpdateStatus
  rw [h]
  simp

theorem bgHandleFailure_self (st : Store) (j : Nat) (msg : String) (el : Nat)
    (h : storeHas st j = true) :
    ∃ r, storeLookup (bgHandleFailure st j msg el) j = Option.some r ∧
      r.status = JobStatus.failed ∧ r.error_message = Option.some msg ∧
      r.processing_time_seconds = Option.some el := by
  obtain ⟨r0, hr0⟩ := storeHas_true_exists st j h
  unfold bgHandleFailure repoUpdateStatus
  rw [if_pos h]
  dsimp only
  rw [storeLookup_update_self, storeLookup_update_self, hr0]
  exact ⟨_, rfl, rfl, rfl, rfl⟩

theorem bgHandleFailure_lookup (st : Store) (j : Nat) (msg : String) (el : Nat)
    (i : Nat) (r' : JobRecord)
    (h : storeLookup (bgHandleFailure st j msg el) i = Option.some r') :
    storeLookup st i = Option.some r' ∨ r'.status = JobStatus.failed := by
  by_cases hh : storeHas st j = true
  · unfold bgHandleFailure repoUpdateStatus at h
    rw [if_pos hh] at h
    dsimp only at h
    by_cases hij : (i == j) = true
    · have hij2 : i = j := eq_of_beq hij
      subst hij2
      rw [storeLookup_update_self, storeLookup_update_self] at h
      cases hl : storeLookup st i with
      | none =>
        rw [hl] at h
        simp at h
      | some r0 =>
        rw [hl, Option.map_some', Option.map_some'] at h
        injection h with h3
        subst h3
        right
        rfl
    · have hij2 := beq_false_of_ne i j hij
      rw [storeLookup_update_ne _ _ _ _ hij2, storeLookup_update_ne _ _ _ _ hij2] at h
      exact Or.inl h
  · have hh2 : storeHas st j = false := by
      cases hb : storeHas st j with
      | true => exact absurd hb hh
      | false => rfl
    rw [bgHandleFailure_skip st j msg el hh2] at h
    exact Or.inl h

theorem bgWriteSuccess_skip (st : Store) (j : Nat) (pr : PyVal) (it : String)
    (mi : Option String) (el : Nat) (h : storeHas st j = false) :
    bgWriteSuccess st j pr it mi el = st := by
  unfold bgWriteSuccess repoUpdateStatus
  rw [h]
  simp only [Bool.false_eq_true, if_false]
  exact bgHandleFailure_skip st j _ el h

theorem bgWriteSuccess_self (st : Store) (j : Nat) (pr : PyVal) (it : String)
    (mi : Option String) (el : Nat) (h : storeHas st j = true) :
    ∃ r, storeLookup (bgWriteSuccess st j pr it mi el) j = Option.some r ∧
      r.status = JobStatus.success ∧
      r.parsed_data = (popMetadata pr).2 ∧
      r.file_mime_type = mi ∧
      r.processing_time_seconds = Option.some el := by
  obtain ⟨r0, hr0⟩ := storeHas_true_exists st j h
  unfold bgWriteSuccess repoUpdateStatus
  rw [if_pos h]
  dsimp only
  rw [storeLookup_update_self, storeLookup_update_self, hr0]
  exact ⟨_, rfl, rfl, rfl, rfl, rfl⟩

theorem bgWriteSuccess_lookup (st : Store) (j : Nat) (pr : PyVal) (it : String)
    (mi : Option String) (el : Nat) (i : Nat) (r' : JobRecord)
    (h : storeLookup (bgWriteSuccess st j pr it mi el) i = Option.some r') :
    storeLookup st i = Option.some r' ∨ r'.status = JobStatus.success := by
  by_cases hh : storeHas st j = true
  · unfold bgWriteSuccess repoUpdateStatus at h
    rw [if_pos hh] at h
    dsimp only at h
    by_cases hij : (i == j) = true
    · have hij2 : i = j := eq_of_beq hij
      subst hij2
      rw [storeLookup_update_self, storeLookup_update_self] at h
      cases hl : storeLookup st i with
      | none =>
        rw [hl] at h
        simp at h
      | some r0 =>
        rw [hl, Option.map_some', Option.map_some'] at h
        injection h with h3
        subst h3
        right
        rfl
    · have hij2 := beq_false_of_ne i j hij
      rw [storeLookup_update_ne _ _ _ _ hij2, storeLookup_update_ne _ _ _ _ hij2] at h
      exact Or.inl h
  · have hh2 : storeHas st j = false := by
      cases hb : storeHas st j with
      | true => exact absurd hb hh
      | false => rfl
    rw [bgWriteSuccess_skip st j pr it mi el hh2] at h
    exact Or.inl h

/-- The pre-existing record for the C3 scenario: a completed job under
id 0. -/
def c3OldRecord : JobRecord :=
  ⟨"u1", "s1", PyVal.dict [("profile", PyVal.str "old")], Option.none, Option.none,
   Option.none, Option.none, Option.none, Option.none, Option.none,
   JobStatus.success, Option.none⟩

def c3Store : Store := [(0, c3OldRecord)]

/-- C3 counterexample: `ParserRepository.create` with the identifier of
an existing record does NOT succeed — the insert hits the primary-key
unique constraint and raises `DatabaseError`; there is no upsert. -/
theorem C3_create_existing_id_counterexample :
    ¬ ∃ (st2 : Store) (rid : Nat),
      repoCreate c3Store "u2" "s2" (PyVal.dict []) Option.none Option.none
        Option.none Option.none Option.none Option.none Option.none
        JobStatus.processing Option.none (Option.some 0) 0 =
        Except.ok (st2, rid) := by
  rintro ⟨st2, rid, h⟩
  have h2 : (Except.error (databaseError
      "Failed to create parsed CV: duplicate key value violates unique constraint")
        : Except ApiErr (Store × Nat)) = Except.ok (st2, rid) := h
  exact Except.noConfusion h2

/-- C3 amended: creating a record (placeholder job) under an id that
already exists fails — `repoCreate` raises `DatabaseError`,
`create_placeholder_job` wraps it into `ParserError`, and the store is
left exactly as it was: the old record is not overwritten and no second
record is appended. -/
theorem C3_create_existing_id_fails_store_unchanged :
    (∀ (st : Store) (id genId : Nat) (u s : String) (pd : PyVal)
      (it fn fm cl : Option String) (pt : Option Nat) (om : Option String)
      (tk : Option Nat) (status : JobStatus) (em : Option String),
      storeHas st id = true →
      repoCreate st u s pd it fn fm cl pt om tk status em (Option.some id) genId =
        Except.error (databaseError
          "Failed to create parsed CV: duplicate key value violates unique constraint"))
  ∧ (∀ (st : Store) (jobId : Nat) (u s : String) (fn : Option String),
      storeHas st jobId = true →
      create_placeholder_job st jobId u s fn =
        Except.error (parserError ("Failed to create job: " ++
          "Failed to create parsed CV: duplicate key value violates unique constraint")))
  ∧ (∀ (st : Store) (jobId : Nat) (u s : String) (fn : Option String),
      storeHas st jobId = true →
      applyOp st (ServiceOp.createJob jobId u s fn) = st) := by
  have hcreate : ∀ (st : Store) (id genId : Nat) (u s : String) (pd : PyVal)
      (it fn fm cl : Option String) (pt : Option Nat) (om : Option String)
      (tk : Option Nat) (status : JobStatus) (em : Option String),
      storeHas st id = true →
      repoCreate st u s pd it fn fm cl pt om tk status em (Option.some id) genId =
        Except.error (databaseError
          "Failed to create parsed CV: duplicate key value violates unique constraint") := by
    intro st id genId u s pd it fn fm cl pt om tk status em h
    unfold repoCreate
    simp only [Option.getD]
    rw [if_pos h]
  refine ⟨hcreate, ?_, ?_⟩
  · intro st jobId u s fn h
    unfold create_placeholder_job
    rw [hcreate st jobId jobId u s (PyVal.dict []) Option.none fn Option.none
      Option.none Option.none Option.none Option.none JobStatus.processing
      Option.none h]
    rfl
  · intro st jobId u s fn h
    unfold applyOp create_placeholder_job
    dsimp only
    rw [hcreate st jobId jobId u s (PyVal.dict []) Option.none fn Option.none
      Option.none Option.none Option.none Option.none JobStatus.processing
      Option.none h]

/-- Witness for the amended C3 at the concrete one-record store. -/
theorem C3_create_existing_id_fails_store_unchanged_witness :
    create_placeholder_job c3Store 0 "u2" "s2" Option.none =
      Except.error (parserError ("Failed to create job: " ++
        "Failed to create parsed CV: duplicate key value violates unique constraint"))
  ∧ applyOp c3Store (ServiceOp.createJob 0 "u2" "s2" Option.none) = c3Store := by
  constructor
  · exact C3_create_existing_id_fails_store_unchanged.2.1 c3Store 0 "u2" "s2"
      Option.none rfl
  · exact C3_create_existing_id_fails_store_unchanged.2.2 c3Store 0 "u2" "s2"
      Option.none rfl

theorem process_file_background_lookup (st : Store) (j : Nat)
    (ex : Except ApiErr ExtractionResult) (llm : Except ApiErr PyVal)
    (eo ef : Nat) (i : Nat) (r' : JobRecord)
    (h : storeLookup (process_file_background st j ex llm eo ef) i = Option.some r') :
    storeLookup st i = Option.some r' ∨
      r'.status = JobStatus.failed ∨ r'.status = JobStatus.success := by
  unfold process_file_background at h
  cases ex with
  | error e =>
    rcases bgHandleFailure_lookup st j e.message ef i r' h with h2 | h2
    · exact Or.inl h2
    · exact Or.inr (Or.inl h2)
  | ok exr =>
    dsimp only at h
    by_cases hlen :
        (exr.content.data.isEmpty || decide ((stripChars exr.content.data).length < 10)) = true
    · rw [if_pos hlen] at h
      rcases bgHandleFailure_lookup st j _ ef i r' h with h2 | h2
      · exact Or.inl h2
      · exact Or.inr (Or.inl h2)
    · rw [if_neg hlen] at h
      cases llm with
      | error e =>
        rcases bgHandleFailure_lookup st j e.message ef i r' h with h2 | h2
        · exact Or.inl h2
        · exact Or.inr (Or.inl h2)
      | ok pr =>
        rcases bgWriteSuccess_lookup st j pr exr.content
            (Option.some exr.mimeType) eo i r' h with h2 | h2
        · exact Or.inl h2
        · exact Or.inr (Or.inr h2)

theorem process_text_background_lookup (st : Store) (j : Nat) (t : String)
    (llm : Except ApiErr PyVal) (eo ef : Nat) (i : Nat) (r' : JobRecord)
    (h : storeLookup (process_text_background st j t llm eo ef) i = Option.some r') :
    storeLookup st i = Option.some r' ∨
      r'.status = JobStatus.failed ∨ r'.status = JobStatus.success := by
  unfold process_text_background at h
  by_cases hlen : (t.data.isEmpty || decide ((stripChars t.data).length < 10)) = true
  · rw [if_pos hlen] at h
    rcases bgHandleFailure_lookup st j _ ef i r' h with h2 | h2
    · exact Or.inl h2
    · exact Or.inr (Or.inl h2)
  · rw [if_neg hlen] at h
    cases llm with
    | error e =>
      rcases bgHandleFailure_lookup st j e.message ef i r' h with h2 | h2
      · exact Or.inl h2
      · exact Or.inr (Or.inl h2)
    | ok pr =>
      rcases bgWriteSuccess_lookup st j pr t Option.none eo i r' h with h2 | h2
      · exact Or.inl h2
      · exact Or.inr (Or.inr h2)

theorem parseFromTextFail_store (st : Store) (u s t msg : String) (g el : Nat) :
    (parseFromTextFail st u s t msg g el).2 = st ∨
    ∃ rec, (parseFromTextFail st u s t msg g el).2 = st ++ [(g, rec)] := by
  unfold parseFromTextFail repoCreate
  simp only [Option.getD]
  by_cases hh : storeHas st g = true
  · rw [if_pos hh]
    exact Or.inl rfl
  · have hh2 : storeHas st g = false := by
      cases hb : storeHas st g with
      | true => exact absurd hb hh
      | false => rfl
    rw [hh2]
    simp only [Bool.false_eq_true, if_false]
    exact Or.inr ⟨_, rfl⟩

theorem parseFromFileFail_store (st : Store) (u s : String) (fn : Option String)
    (msg : String) (g el : Nat) :
    (parseFromFileFail st u s fn msg g el).2 = st ∨
    ∃ rec, (parseFromFileFail st u s fn msg g el).2 = st ++ [(g, rec)] := by
  unfold parseFromFileFail repoCreate
  simp only [Option.getD]
  by_cases hh : storeHas st g = true
  · rw [if_pos hh]
    exact Or.inl rfl
  · have hh2 : storeHas st g = false := by
      cases hb : storeHas st g with
      | true => exact absurd hb hh
      | false => rfl
    rw [hh2]
    simp only [Bool.false_eq_true, if_false]
    exact Or.inr ⟨_, rfl⟩

theorem parse_from_text_store (st : Store) (u s t : String)
    (llm : Except ApiErr PyVal) (g gf el : Nat) :
    (parse_from_text st u s t llm g gf el).2 = st ∨
    ∃ id rec, (parse_from_text st u s t llm g gf el).2 = st ++ [(id, rec)] := by
  unfold parse_from_text
  by_cases hv : (t.data.isEmpty || decide ((stripChars t.data).length < 10)) = true
  · rw [if_pos hv]
    exact Or.inl rfl
  · rw [if_neg hv]
    cases llm with
    | error e =>
      rcases parseFromTextFail_store st u s t e.message gf el with h2 | ⟨rec, h2⟩
      · exact Or.inl h2
      · exact Or.inr ⟨gf, rec, h2⟩
    | ok pr =>
      dsimp only
      unfold repoCreate
      simp only [Option.getD]
      by_cases hh : storeHas st g = true
      · rw [if_pos hh]
        dsimp only
        rcases parseFromTextFail_store st u s t _ gf el with h2 | ⟨rec, h2⟩
        · exact Or.inl h2
        · exact Or.inr ⟨gf, rec, h2⟩
      · have hh2 : storeHas st g = false := by
          cases hb : storeHas st g with
          | true => exact absurd hb hh
          | false => rfl
        rw [hh2]
        simp only [Bool.false_eq_true, if_false]
        exact Or.inr ⟨g, _, rfl⟩

theorem parse_from_file_store (st : Store) (u s f : String)
    (ex : Except ApiErr ExtractionResult) (llm : Except ApiErr PyVal)
    (g gf el : Nat) :
    (parse_from_file st u s f ex llm g gf el).2 = st ∨
    ∃ id rec, (parse_from_file st u s f ex llm g gf el).2 = st ++ [(id, rec)] := by
  unfold parse_from_file
  cases ex with
  | error e =>
    rcases parseFromFileFail_store st u s (Option.some f) e.message gf el with h2 | ⟨rec, h2⟩
    · exact Or.inl h2
    · exact Or.inr ⟨gf, rec, h2⟩
  | ok exr =>
    dsimp only
    by_cases hv :
        (exr.content.data.isEmpty || decide ((stripChars exr.content.data).length < 10)) = true
    · rw [if_pos hv]
      exact Or.inl rfl
    · rw [if_neg hv]
      cases llm with
      | error e =>
        rcases parseFromFileFail_store st u s (Option.some f) e.message gf el with h2 | ⟨rec, h2⟩
        · exact Or.inl h2
        · exact Or.inr ⟨gf, rec, h2⟩
      | ok pr =>
        dsimp only
        unfold repoCreate
        simp only [Option.getD]
        by_cases hh : storeHas st g = true
        · rw [if_pos hh]
          dsimp only
          rcases parseFromFileFail_store st u s (Option.some f) _ gf el with h2 | ⟨rec, h2⟩
          · exact Or.inl h2
          · exact Or.inr ⟨gf, rec, h2⟩
        · have hh2 : storeHas st g = false := by
            cases hb : storeHas st g with
            | true => exact absurd hb hh
            | false => rfl
          rw [hh2]
          simp only [Bool.false_eq_true, if_false]
          exact Or.inr ⟨g, _, rfl⟩

/-- C1: the job lifecycle state machine — a placeholder job is created
with status `processing`; after a background run (file or text)
completes, the record's status is exactly one of success/failed (the
status is a single field, so never both); and no service operation ever
moves a record whose status is terminal back to `processing` (the only
records ever written with `processing` are fresh inserts under an
unused identifier). -/
theorem C1_job_lifecycle_state_machine :
    (∀ (st : Store) (j : Nat) (u s : String) (f : Option String) (st2 : Store),
      create_placeholder_job st j u s f = Except.ok st2 →
      ∃ r, storeLookup st2 j = Option.some r ∧ r.status = JobStatus.processing)
  ∧ (∀ (st : Store) (j : Nat) (ex : Except ApiErr ExtractionResult)
      (llm : Except ApiErr PyVal) (eo ef : Nat),
      storeHas st j = true →
      ∃ r, storeLookup (process_file_background st j ex llm eo ef) j = Option.some r ∧
        (r.status = JobStatus.success ∨ r.status = JobStatus.failed))
  ∧ (∀ (st : Store) (j : Nat) (t : String) (llm : Except ApiErr PyVal) (eo ef : Nat),
      storeHas st j = true →
      ∃ r, storeLookup (process_text_background st j t llm eo ef) j = Option.some r ∧
        (r.status = JobStatus.success ∨ r.status = JobStatus.failed))
  ∧ (∀ (st : Store) (op : ServiceOp) (i : Nat) (r r' : JobRecord),
      storeLookup st i = Option.some r → r.status ≠ JobStatus.processing →
      storeLookup (applyOp st op) i = Option.some r' →
      r'.status ≠ JobStatus.processing) := by
  refine ⟨?_, ?_, ?_, ?_⟩
  · intro st j u s f st2 h
    unfold create_placeholder_job repoCreate at h
    simp only [Option.getD] at h
    by_cases hh : storeHas st j = true
    · rw [if_pos hh] at h
      exact Except.noConfusion h
    · have hh2 : storeHas st j = false := by
        cases hb : storeHas st j with
        | true => exact absurd hb hh
        | false => rfl
      rw [hh2] at h
      simp only [Bool.false_eq_true, if_false] at h
      injection h with h2
      rw [← h2]
      exact ⟨_, storeLookup_append_fresh st j _ hh2, rfl⟩
  · intro st j ex llm eo ef hHas
    unfold process_file_background
    cases ex with
    | error e =>
      obtain ⟨r, hr, hst, _, _⟩ := bgHandleFailure_self st j e.message ef hHas
      exact ⟨r, hr, Or.inr hst⟩
    | ok exr =>
      dsimp only
      by_cases hlen :
          (exr.content.data.isEmpty || decide ((stripChars exr.content.data).length < 10)) = true
      · rw [if_pos hlen]
        obtain ⟨r, hr, hst, _, _⟩ := bgHandleFailure_self st j _ ef hHas
        exact ⟨r, hr, Or.inr hst⟩
      · rw [if_neg hlen]
        cases llm with
        | error e =>
          obtain ⟨r, hr, hst, _, _⟩ := bgHandleFailure_self st j e.message ef hHas
          exact ⟨r, hr, Or.inr hst⟩
        | ok pr =>
          obtain ⟨r, hr, hst, _, _, _⟩ := bgWriteSuccess_self st j pr exr.content
            (Option.some exr.mimeType) eo hHas
          exact ⟨r, hr, Or.inl hst⟩
  · intro st j t llm eo ef hHas
    unfold process_text_background
    by_cases hlen : (t.data.isEmpty || decide ((stripChars t.data).length < 10)) = true
    · rw [if_pos hlen]
      obtain ⟨r, hr, hst, _, _⟩ := bgHandleFailure_self st j _ ef hHas
      exact ⟨r, hr, Or.inr hst⟩
    · rw [if_neg hlen]
      cases llm with
      | error e =>
        obtain ⟨r, hr, hst, _, _⟩ := bgHandleFailure_self st j e.message ef hHas
        exact ⟨r, hr, Or.inr hst⟩
      | ok pr =>
        obtain ⟨r, hr, hst, _, _, _⟩ := bgWriteSuccess_self st j pr t Option.none eo hHas
        exact ⟨r, hr, Or.inl hst⟩
  · intro st op i r r' hr hterm hr'
    cases op with
    | createJob j u s f =>
      unfold applyOp at hr'
      dsimp only at hr'
      unfold create_placeholder_job repoCreate at hr'
      simp only [Option.getD] at hr'
      by_cases hh : storeHas st j = true
      · rw [if_pos hh] at hr'
        rw [hr] at hr'
        injection hr' with h3
        rw [← h3]
        exact hterm
      · have hh2 : storeHas st j = false := by
          cases hb : storeHas st j with
          | true => exact absurd hb hh
          | false => rfl
        rw [hh2] at hr'
        simp only [Bool.false_eq_true, if_false] at hr'
        have h3 := storeLookup_append_left st
          [(j, (⟨u, s, PyVal.dict [], Option.none, f, Option.none, Option.none,
            Option.none, Option.none, Option.none, JobStatus.processing,
            Option.none⟩ : JobRecord))] i r hr
        rw [h3] at hr'
        injection hr' with h4
        rw [← h4]
        exact hterm
    | runFile j ex llm eo ef =>
      rcases process_file_background_lookup st j ex llm eo ef i r' hr' with h2 | h2 | h2
      · rw [hr] at h2
        injection h2 with h3
        rw [← h3]
        exact hterm
      · rw [h2]
        decide
      · rw [h2]
        decide
    | runText j t llm eo ef =>
      rcases process_text_background_lookup st j t llm eo ef i r' hr' with h2 | h2 | h2
      · rw [hr] at h2
        injection h2 with h3
        rw [← h3]
        exact hterm
      · rw [h2]
        decide
      · rw [h2]
        decide
    | submitText u2 s2 t llm g gf e =>
      rcases parse_from_text_store st u2 s2 t llm g gf e with h2 | ⟨id2, rec2, h2⟩
      · dsimp only [applyOp] at hr'
        rw [h2, hr] at hr'
        injection hr' with h3
        rw [← h3]
        exact hterm
      · dsimp only [applyOp] at hr'
        rw [h2] at hr'
        have h3 := storeLookup_append_left st [(id2, rec2)] i r hr
        rw [h3] at hr'
        injection hr' with h4
        rw [← h4]
        exact hterm
    | submitFile u2 s2 f2 ex llm g gf e =>
      rcases parse_from_file_store st u2 s2 f2 ex llm g gf e with h2 | ⟨id2, rec2, h2⟩
      · dsimp only [applyOp] at hr'
        rw [h2, hr] at hr'
        injection hr' with h3
        rw [← h3]
        exact hterm
      · dsimp only [applyOp] at hr'
        rw [h2] at hr'
        have h3 := storeLookup_append_left st [(id2, rec2)] i r hr
        rw [h3] at hr'
        injection hr' with h4
        rw [← h4]
        exact hterm

/-- Witness for C1 at concrete stores: a placeholder insert into the
empty store yields a `processing` record; a failed background file run
on an existing record yields `failed`; a background text run with a
too-short text on a completed record yields `failed`, never
`processing` again. -/
theorem C1_job_lifecycle_state_machine_witness :
    (∃ r, storeLookup [(1, (⟨"u", "s", PyVal.dict [], Option.none, Option.none,
        Option.none, Option.none, Option.none, Option.none, Option.none,
        JobStatus.processing, Option.none⟩ : JobRecord))] 1 = Option.some r ∧
      r.status = JobStatus.processing)
  ∧ (∃ r, storeLookup (process_file_background c3Store 0
        (Except.error (fileProcessingError "boom")) (Except.ok (PyVal.dict [])) 3 4) 0 =
        Option.some r ∧ (r.status = JobStatus.success ∨ r.status = JobStatus.failed))
  ∧ (∃ r, storeLookup (process_text_background c3Store 0 "x"
        (Except.error (openAIError "boom")) 1 2) 0 =
        Option.some r ∧ (r.status = JobStatus.success ∨ r.status = JobStatus.failed))
  ∧ (⟨"u1", "s1", PyVal.dict [("profile", PyVal.str "old")], Option.none, Option.none,
      Option.none, Option.none, Option.some 2, Option.none, Option.none,
      JobStatus.failed, Option.some "Text is too short to parse"⟩ : JobRecord).status ≠
      JobStatus.processing := by
  refine ⟨?_, ?_, ?_, ?_⟩
  · exact C1_job_lifecycle_state_machine.1 [] 1 "u" "s" Option.none _ rfl
  · exact C1_job_lifecycle_state_machine.2.1 c3Store 0
      (Except.error (fileProcessingError "boom")) (Except.ok (PyVal.dict [])) 3 4 rfl
  · exact C1_job_lifecycle_state_machine.2.2.1 c3Store 0 "x"
      (Except.error (openAIError "boom")) 1 2 rfl
  · exact C1_job_lifecycle_state_machine.2.2.2 c3Store
      (ServiceOp.runText 0 "x" (Except.error (openAIError "boom")) 1 2) 0
      c3OldRecord _ rfl (by decide) rfl

/-- C9 counterexample: through the submission path the rate-limit
failure and the invalid-JSON failure surface with the SAME error kind
(`PARSER_ERROR`) — `parse_from_text` collapses every non-validation
exception into `ParserError`, so the two kinds are NOT distinguishable
to the caller by error kind. -/
theorem C9_error_kinds_collapsed_counterexample :
    surfacedKind (parse_from_text [] "u" "s" c9Text
        (parse_cv LlmOutcome.rateLimited Option.none c9Meta) 1 2 5) =
      surfacedKind (parse_from_text [] "u" "s" c9Text
        (parse_cv (LlmOutcome.response (Option.some (LlmContent.invalidJson "bad")))
          Option.none c9Meta) 1 2 5)
  ∧ surfacedKind (parse_from_text [] "u" "s" c9Text
        (parse_cv LlmOutcome.rateLimited Option.none c9Meta) 1 2 5) =
      Option.some "PARSER_ERROR" := by
  exact ⟨rfl, rfl⟩

/-- C9 amended: the OpenAI service raises the two failures as distinct
error kinds (`OPENAI_RATE_LIMIT` vs `OPENAI_INVALID_RESPONSE`), but the
submission path wraps every non-validation failure into the single
`PARSER_ERROR` kind, embedding only the original message — so the two
remain distinguishable through message text, not error kind. -/
theorem C9_rate_limit_and_invalid_json_kinds :
    (∀ (v : Option PyVal) (m : LlmMeta),
      parse_cv LlmOutcome.rateLimited v m =
        Except.error (openAIRateLimitError
          "Azure OpenAI rate limit exceeded. Please try again later."))
  ∧ (∀ (v : Option PyVal) (m : LlmMeta) (em : String),
      parse_cv (LlmOutcome.response (Option.some (LlmContent.invalidJson em))) v m =
        Except.error (openAIInvalidResponseError ("OpenAI returned invalid JSON: " ++ em)))
  ∧ (openAIRateLimitError "").errorCode ≠ (openAIInvalidResponseError "").errorCode
  ∧ (∀ (st : Store) (u s t : String) (e : ApiErr) (g gf el : Nat),
      (t.data.isEmpty || decide ((stripChars t.data).length < 10)) = false →
      (parse_from_text st u s t (Except.error e) g gf el).1 =
        Except.error (parserError ("Failed to parse CV from text: " ++ e.message))) := by
  refine ⟨fun v m => rfl, fun v m em => rfl, by decide, ?_⟩
  intro st u s t e g gf el hlen
  unfold parse_from_text
  rw [hlen]
  simp only [Bool.false_eq_true, if_false]
  unfold parseFromTextFail repoCreate
  simp only [Option.getD]
  by_cases hh : storeHas st gf = true
  · rw [if_pos hh]
  · have hh2 : storeHas st gf = false := by
      cases hb : storeHas st gf with
      | true => exact absurd hb hh
      | false => rfl
    rw [hh2]
    simp only [Bool.false_eq_true, if_false]

/-- Witness for the amended C9: both concrete failures surface as
`PARSER_ERROR` with the service-level message embedded. -/
theorem C9_rate_limit_and_invalid_json_kinds_witness :
    (parse_from_text [] "u" "s" c9Text
      (Except.error (openAIRateLimitError
        "Azure OpenAI rate limit exceeded. Please try again later.")) 1 2 5).1 =
      Except.error (parserError ("Failed to parse CV from text: " ++
        "Azure OpenAI rate limit exceeded. Please try again later.")) := by
  exact C9_rate_limit_and_invalid_json_kinds.2.2.2 [] "u" "s" c9Text
    (openAIRateLimitError "Azure OpenAI rate limit exceeded. Please try again later.")
    1 2 5 (by decide)

/-- C4 counterexample: submitting a 50 MB file against the 10 MB limit
through the synchronous path DOES create a job record (a `failed` row
is inserted), and the surfaced error kind is the generic
`PARSER_ERROR`, not the file-size-limit kind. -/
theorem C4_oversized_counterexample :
    ¬ (c4Result.2 = ([] : Store)) ∧ surfacedKind c4Result = Option.some "PARSER_ERROR" := by
  constructor
  · intro h
    have h2 := congrArg List.length h
    have h3 : (1 : Nat) = 0 := h2
    exact absurd h3 (by decide)
  · rfl

/-- C4 amended: an oversized upload fails synchronously, but the
`FileSizeLimitError` is wrapped by the file service into
`FileProcessingError` and by the parser service into `ParserError`
(kind `PARSER_ERROR`, size message embedded), and a `failed` job record
is appended to the store. -/
theorem C4_oversized_file_failed_record :
    ∀ (st : Store) (u s fn : String) (contentLen maxMB : Nat) (sniffed : String)
      (docs : List String) (llm : Except ApiErr PyVal) (g gf el : Nat),
      maxMB * 1048576 < contentLen →
      storeHas st gf = false →
      parse_from_file st u s fn
        (fileServiceExtractFile Option.none
          (extract_text_from_content contentLen maxMB sniffed fn docs)) llm g gf el =
      (Except.error (parserError ("Failed to parse CV from file: " ++
          ("Failed to process file: " ++
            ("File size exceeds maximum limit of " ++ toString maxMB ++ "MB")))),
       st ++ [(gf, ⟨u, s, PyVal.dict [], Option.none, Option.some fn, Option.none,
         Option.none, Option.some el, Option.none, Option.none, JobStatus.failed,
         Option.some ("Failed to process file: " ++
           ("File size exceeds maximum limit of " ++ toString maxMB ++ "MB"))⟩)]) := by
  intro st u s fn contentLen maxMB sniffed docs llm g gf el hsize hfresh
  unfold parse_from_file fileServiceExtractFile extract_text_from_content validate_file_size
  rw [if_pos hsize]
  dsimp only
  unfold parseFromFileFail repoCreate
  simp only [Option.getD]
  rw [hfresh]
  simp only [Bool.false_eq_true, if_false]
  rfl

/-- Witness for the amended C4 at the concrete 50 MB upload. -/
theorem C4_oversized_file_failed_record_witness :
    c4Result =
      (Except.error (parserError ("Failed to parse CV from file: " ++
          ("Failed to process file: " ++
            ("File size exceeds maximum limit of " ++ toString 10 ++ "MB")))),
       [(2, ⟨"u", "s", PyVal.dict [], Option.none, Option.some "big.pdf", Option.none,
         Option.none, Option.some 7, Option.none, Option.none, JobStatus.failed,
         Option.some ("Failed to process file: " ++
           ("File size exceeds maximum limit of " ++ toString 10 ++ "MB"))⟩)]) := by
  exact C4_oversized_file_failed_record [] "u" "s" "big.pdf" 52428800 10
    "application/pdf" ["doc"] (Except.ok (PyVal.dict [])) 1 2 7 (by decide) rfl

/-- C5: the pipeline stores the LLM payload unchanged — the stored
profile's experience entry carries no `duration_in_months` and its
basics block no `total_experience_in_years` — although the repository's
own enrichment helpers, never invoked by any code path, would annotate
the entry with 13 months.  This contradicts the spec's "enrichment is
applied" and the schema fields shipped for it: the calculator module is
dead code. -/
theorem C5_enrichment_never_applied :
    ((storeLookup c5PipelineStore 7).map (fun r => r.parsed_data)) =
      Option.some c5LlmOutput
  ∧ ((storeLookup c5PipelineStore 7).map (fun r => r.status)) =
      Option.some JobStatus.success
  ∧ dget c5ExpEntry "duration_in_months" = PyVal.none
  ∧ dget c5Basics "total_experience_in_years" = PyVal.none
  ∧ (∀ (nY nM : Int), enrich_professional_experiences [c5ExpEntry] nY nM =
      [dictSet c5ExpEntry "duration_in_months" (PyVal.int 13)])
  ∧ dget (dictSet c5ExpEntry "duration_in_months" (PyVal.int 13))
      "duration_in_months" = PyVal.int 13
  ∧ (∀ (nY nM : Int), calculate_total_experience_months [c5ExpEntry] nY nM = 13) := by
  exact ⟨rfl, rfl, rfl, rfl, fun nY nM => rfl, rfl, fun nY nM => rfl⟩

theorem cacheStore_key_expire {α : Type} (c : TTLCacheModel α) (t0 : Nat)
    (k : String) (v : α) :
    ∀ e ∈ (cacheStore c t0 k v).entries, (e.key == k) = true →
      e.expire = t0 + c.ttl := by
  intro e hmem hkey
  unfold cacheStore at hmem
  by_cases hany : (cacheLive c t0).any (fun x => x.key == k) = true
  · rw [if_pos hany] at hmem
    dsimp only at hmem
    rcases List.mem_map.mp hmem with ⟨x, hx, hfx⟩
    by_cases hxk : (x.key == k) = true
    · rw [if_pos hxk] at hfx
      rw [← hfx]
    · rw [if_neg hxk] at hfx
      rw [← hfx] at hkey
      exact absurd hkey hxk
  · have hany2 : (cacheLive c t0).any (fun x => x.key == k) = false := by
      cases hb : (cacheLive c t0).any (fun x => x.key == k) with
      | true => exact absurd hb hany
      | false => rfl
    have hnok : ∀ x ∈ cacheLive c t0, (x.key == k) = false := by
      intro x hx
      cases hb : (x.key == k) with
      | true =>
        have h4 : (cacheLive c t0).any (fun y => y.key == k) = true :=
          List.any_of_mem hx hb
        rw [h4] at hany2
        exact Bool.noConfusion hany2
      | false => rfl
    rw [if_neg hany] at hmem
    by_cases hfull : c.maxsize ≤ (cacheLive c t0).length
    · rw [if_pos hfull] at hmem
      cases hsel : selectLRU (cacheLive c t0) with
      | none =>
        rw [hsel] at hmem
        dsimp only at hmem
        rcases List.mem_append.mp hmem with h2 | h2
        · exact absurd hkey (Bool.noConfusion ∘ (hnok e h2).symm.trans)
        · rcases List.mem_singleton.mp h2 with rfl
          rfl
      | some victim =>
        rw [hsel] at hmem
        dsimp only at hmem
        rcases List.mem_append.mp hmem with h2 | h2
        · have h3 := List.mem_of_mem_filter h2
          exact absurd hkey (Bool.noConfusion ∘ (hnok e h3).symm.trans)
        · rcases List.mem_singleton.mp h2 with rfl
          rfl
    · rw [if_neg hfull] at hmem
      dsimp only at hmem
      rcases List.mem_append.mp hmem with h2 | h2
      · exact absurd hkey (Bool.noConfusion ∘ (hnok e h2).symm.trans)
      · rcases List.mem_singleton.mp h2 with rfl
        rfl

theorem selectLRU_foldl_spec {α : Type} :
    ∀ (es : List (CacheEntry α)) (b : CacheEntry α),
      (es.foldl (fun best x => if x.lastUse < best.lastUse then x else best) b = b ∨
        es.foldl (fun best x => if x.lastUse < best.lastUse then x else best) b ∈ es) ∧
      (es.foldl (fun best x => if x.lastUse < best.lastUse then x else best) b).lastUse ≤
        b.lastUse ∧
      (∀ x ∈ es,
        (es.foldl (fun best x => if x.lastUse < best.lastUse then x else best) b).lastUse ≤
          x.lastUse) := by
  intro es
  induction es with
  | nil =>
    intro b
    refine ⟨Or.inl rfl, Nat.le_refl _, ?_⟩
    intro x hx
    exact absurd hx (List.not_mem_nil x)
  | cons a es2 ih =>
    intro b
    simp only [List.foldl_cons]
    obtain ⟨hin, hle, hall⟩ := ih (if a.lastUse < b.lastUse then a else b)
    have hpb : (if a.lastUse < b.lastUse then a else b).lastUse ≤ b.lastUse := by
      by_cases hab : a.lastUse < b.lastUse
      · rw [if_pos hab]; omega
      · rw [if_neg hab]
    have hpa : (if a.lastUse < b.lastUse then a else b).lastUse ≤ a.lastUse := by
      by_cases hab : a.lastUse < b.lastUse
      · rw [if_pos hab]
      · rw [if_neg hab]; omega
    have hcases : (if a.lastUse < b.lastUse then a else b) = a ∨
        (if a.lastUse < b.lastUse then a else b) = b := by
      by_cases hab : a.lastUse < b.lastUse
      · exact Or.inl (if_pos hab)
      · exact Or.inr (if_neg hab)
    refine ⟨?_, Nat.le_trans hle hpb, ?_⟩
    · rcases hin with h2 | h2
      · rcases hcases with hc | hc
        · right
          rw [h2, hc]
          exact List.mem_cons_self a es2
        · left
          rw [h2, hc]
      · exact Or.inr (List.mem_cons_of_mem a h2)
    · intro x hx
      rcases List.mem_cons.mp hx with rfl | hx2
      · exact Nat.le_trans hle hpa
      · exact hall x hx2

theorem selectLRU_strict_min {α : Type} (l : List (CacheEntry α)) (e : CacheEntry α)
    (hmem : e ∈ l) (hmin : ∀ x ∈ l, x ≠ e → e.lastUse < x.lastUse) :
    selectLRU l = Option.some e := by
  cases l with
  | nil => exact absurd hmem (List.not_mem_nil e)
  | cons b es =>
    unfold selectLRU
    dsimp only
    obtain ⟨hin, hle, hall⟩ := selectLRU_foldl_spec es b
    have hrmem : (es.foldl (fun best x => if x.lastUse < best.lastUse then x else best) b) ∈
        b :: es := by
      rcases hin with h2 | h2
      · rw [h2]
        exact List.mem_cons_self b es
      · exact List.mem_cons_of_mem b h2
    have hrle : (es.foldl (fun best x => if x.lastUse < best.lastUse then x else best) b).lastUse ≤
        e.lastUse := by
      rcases List.mem_cons.mp hmem with rfl | h2
      · exact hle
      · exact hall e h2
    by_cases heq : (es.foldl (fun best x => if x.lastUse < best.lastUse then x else best) b) = e
    · rw [heq]
    · have := hmin _ hrmem heq
      omega

/-- C8 (spec-modelled, `cachetools.TTLCache` is outside `src/`): a
lookup performed once the time-to-live has elapsed since an entry was
stored is a miss; and an insertion into a cache already holding its
maximum number of unexpired entries evicts exactly the
least-recently-used entry — the surviving entries are precisely the
other live ones plus the new insertion. -/
theorem C8_cache_ttl_miss_and_lru_eviction :
    (∀ (α : Type) (c : TTLCacheModel α) (t0 : Nat) (k : String) (v : α) (t : Nat),
      t0 + c.ttl ≤ t →
      cacheLookup (cacheStore c t0 k v) t k = Option.none)
  ∧ (∀ (α : Type) (c : TTLCacheModel α) (t : Nat) (k : String) (v : α)
      (e : CacheEntry α),
      (cacheLive c t).any (fun x => x.key == k) = false →
      c.maxsize ≤ (cacheLive c t).length →
      e ∈ cacheLive c t →
      (∀ x ∈ cacheLive c t, x ≠ e → e.lastUse < x.lastUse) →
      selectLRU (cacheLive c t) = Option.some e ∧
      (cacheStore c t k v).entries =
        ((cacheLive c t).filter (fun x => !(x.key == e.key))) ++ [⟨k, v, t + c.ttl, t⟩]) := by
  constructor
  · intro α c t0 k v t ht
    unfold cacheLookup
    cases hf : (cacheLive (cacheStore c t0 k v) t).find? (fun e => e.key == k) with
    | none => rfl
    | some e =>
      exfalso
      have hmem := List.mem_of_find?_eq_some hf
      have hkey := List.find?_some hf
      unfold cacheLive at hmem
      have hmem2 : e ∈ (cacheStore c t0 k v).entries := List.mem_of_mem_filter hmem
      have hlt := List.of_mem_filter hmem
      simp only [decide_eq_true_eq] at hlt
      have hexp := cacheStore_key_expire c t0 k v e hmem2 hkey
      rw [hexp] at hlt
      omega
  · intro α c t k v e hany hfull hmem hmin
    have hsel := selectLRU_strict_min (cacheLive c t) e hmem hmin
    refine ⟨hsel, ?_⟩
    unfold cacheStore
    rw [if_neg (by rw [hany]; exact Bool.noConfusion), if_pos hfull, hsel]

/-- Witness for C8 at a concrete two-entry cache of capacity 2: the
entry stored at time 100 with TTL 3600 misses at time 3700, and
inserting a third hash evicts the entry last used at 10, keeping the
one last used at 20. -/
theorem C8_cache_ttl_miss_and_lru_eviction_witness :
    cacheLookup (cacheStore (⟨2, 3600, []⟩ : TTLCacheModel Nat) 100 "h1" 7) 3700 "h1" =
      Option.none
  ∧ selectLRU (cacheLive (⟨2, 3600,
      [⟨"h1", 1, 4000, 10⟩, ⟨"h2", 2, 4000, 20⟩]⟩ : TTLCacheModel Nat) 100) =
      Option.some ⟨"h1", 1, 4000, 10⟩
  ∧ (cacheStore (⟨2, 3600,
      [⟨"h1", 1, 4000, 10⟩, ⟨"h2", 2, 4000, 20⟩]⟩ : TTLCacheModel Nat) 100 "h3" 3).entries =
      [⟨"h2", 2, 4000, 20⟩, ⟨"h3", 3, 3700, 100⟩] := by
  refine ⟨?_, ?_, ?_⟩
  · exact C8_cache_ttl_miss_and_lru_eviction.1 Nat ⟨2, 3600, []⟩ 100 "h1" 7 3700
      (by decide)
  · exact (C8_cache_ttl_miss_and_lru_eviction.2 Nat
      ⟨2, 3600, [⟨"h1", 1, 4000, 10⟩, ⟨"h2", 2, 4000, 20⟩]⟩ 100 "h3" 3
      ⟨"h1", 1, 4000, 10⟩ (by decide) (by decide) (by decide) (by decide)).1
  · have h2 := (C8_cache_ttl_miss_and_lru_eviction.2 Nat
      ⟨2, 3600, [⟨"h1", 1, 4000, 10⟩, ⟨"h2", 2, 4000, 20⟩]⟩ 100 "h3" 3
      ⟨"h1", 1, 4000, 10⟩ (by decide) (by decide) (by decide) (by decide)).2
    rw [h2]
    decide

end CvParser
